import Mathlib

/-!
# libmatAbstract: strided views over a flat buffer (`src/mat.c`)

A shallow embedding of the view machinery of `mat.c` and the properties its
specification states about it.

Conventions of the embedding.

* A C array of `uint16_t` reached through a pointer (`m->dims`, `m->strides`,
  the `dims[]` and `idxs[]` arguments) is a function `Nat → Nat` giving the cell
  at each index counted from the pointer.  C does no bounds checking and neither
  does the embedding: `mat.h` is not among the sources, so the declared lengths
  of the in-struct arrays are not visible here; the specification gives the
  capacity `MAX_RANK = 10`.  A cell at or past that capacity is kept as a cell of
  its own: which other object it overlaps in memory is a matter of layout and is
  not modelled.
* `uint16_t` arithmetic is arithmetic on `Nat` reduced modulo `2 ^ 16`.
* A `fixed *` is the index of a cell in the caller's flat buffer, which is a
  `List fixed`; dereferencing outside the buffer has no result (`none`).
-/

namespace LibMat

/-! ## Data model -/

/-- Modelled from the spec: the capacity of the in-struct shape arrays, declared
in `mat.h` (absent); the specification bounds the rank by 10. -/
def MAX_RANK : Nat := 10

/-- Number of values of a `uint16_t`. -/
def U16 : Nat := 65536

/-- Modelled from the spec: the element type `fixed` comes from an external
fixed-point library; only its being a value with equality and order is used. -/
abbrev fixed := Int

/-- Modelled from the spec: the `sparse` member of `mat_t` (declared in `mat.h`,
absent): its own dims and rank, and two borrowed `uint16_t *` references. -/
structure sparse_t where
  dims : Nat → Nat
  len_dims : Nat
  offsets : Nat
  sizes : Nat

/-- Modelled from the spec: the view descriptor `mat_t` (declared in `mat.h`,
absent): rank, dims, strides, a borrowed reference to the first buffer element,
and the sparse placeholder.  The fields are the ones `mat.c` reads and writes. -/
structure mat_t where
  dims : Nat → Nat
  len_dims : Nat
  strides : Nat → Nat
  data : Nat
  sparse : sparse_t

/-- An array literal, as in `(uint16_t[]){a, b, c}`; cells past the end read 0. -/
def arr (l : List Nat) : Nat → Nat := fun i => l.getD i 0

/-- The assignment `a[i] = v`. -/
def store (a : Nat → Nat) (i v : Nat) : Nat → Nat :=
  fun j => if j = i then v else a j

/-- Effect of `memset(dst, 1, sizeof(uint16_t) * n)`: every byte of the first `n`
cells becomes `0x01`, so each of those cells reads `0x0101 = 257`. -/
def memset1 (dst : Nat → Nat) (n : Nat) : Nat → Nat :=
  fun j => if j < n then 257 else dst j

/-- Effect of `memcpy(dst, src + off, sizeof(uint16_t) * n)`. -/
def memcpy16 (dst src : Nat → Nat) (off n : Nat) : Nat → Nat :=
  fun j => if j < n then src (off + j) else dst j

/-- The counted loop `for (uint16_t i = 0; i < n; i++) body`, whose bound the body
does not change: `body 0`, then `body 1`, ... then `body (n - 1)`. -/
def for_loop {σ : Type} (body : Nat → σ → σ) : Nat → σ → σ
  | 0, s => s
  | n + 1, s => body n (for_loop body n s)

/-! ## `_offset_calc` -/

/-- Loop body of `_offset_calc`: `offset += m->strides[i] * idxs[i]` in `uint16_t`. -/
def offset_step (m : mat_t) (idxs : Nat → Nat) (i offset : Nat) : Nat :=
  (offset + m.strides i * idxs i) % U16

/-- The function `_offset_calc(m, idxs, len)`. -/
def _offset_calc (m : mat_t) (idxs : Nat → Nat) (len : Nat) : Nat :=
  for_loop (offset_step m idxs) len 0

/-! ## `mat_reshape` -/

/-- Loop body of `mat_reshape`; the state is `*m` and `running_stride`. -/
def reshape_step (dims : Nat → Nat) (len i : Nat) (s : mat_t × Nat) : mat_t × Nat :=
  let m1 := { s.1 with dims := store s.1.dims i (dims i) }
  let m2 := { m1 with strides := store m1.strides (len - i - 1) s.2 }
  (m2, (s.2 * dims (len - i - 1)) % U16)

/-- The function `mat_reshape(m, dims, len)`; the result is `*m` after the call. -/
def mat_reshape (m : mat_t) (dims : Nat → Nat) (len : Nat) : mat_t :=
  let m1 := { m with len_dims := len }
  let m2 := { m1 with strides := memset1 m1.strides (len + 1) }
  (for_loop (reshape_step dims len) len (m2, 1)).1

/-! ## Element access -/

/-- The function `mat_get(m, idxs, len)`: the buffer cell at `m->data + offset`. -/
def mat_get (buf : List fixed) (m : mat_t) (idxs : Nat → Nat) (len : Nat) : Option fixed :=
  buf.get? (m.data + _offset_calc m idxs len)

/-- The function `mat_set(m, v, idxs, len)`: the buffer after the store. -/
def mat_set (buf : List fixed) (m : mat_t) (v : fixed) (idxs : Nat → Nat) (len : Nat) :
    Option (List fixed) :=
  if m.data + _offset_calc m idxs len < buf.length then
    some (buf.set (m.data + _offset_calc m idxs len) v)
  else none

/-! ## `mat_constrain` -/

/-- Subtraction `a - b` of two `uint16_t` values, stored in a `uint16_t`. -/
def u16_sub (a b : Nat) : Nat := (a + U16 - b % U16) % U16

/-- The function `mat_constrain(m, idxs, len)`.  The local `c_m` is declared without
an initialiser, so its initial cells are an argument.  The result pairs the
returned view with `*m` as it is when the call returns (the body has no
assignment through `m`). -/
def mat_constrain (c_m m : mat_t) (idxs : Nat → Nat) (len : Nat) : mat_t × mat_t :=
  let len_dims := u16_sub m.len_dims len
  let offset := _offset_calc m idxs len
  let c1 := { c_m with len_dims := len_dims }
  let c2 := { c1 with dims := memcpy16 c1.dims m.dims len len_dims }
  let c3 := { c2 with strides := memset1 c2.strides (len_dims + 1) }
  let c4 := { c3 with strides := memcpy16 c3.strides m.strides len len_dims }
  let c5 := { c4 with sparse := { c4.sparse with dims := memcpy16 c4.sparse.dims m.sparse.dims len 10 } }
  let c6 := { c5 with data := m.data + offset }
  let c7 := { c6 with sparse := { c6.sparse with len_dims := m.sparse.len_dims } }
  let c8 := { c7 with sparse := { c7.sparse with offsets := m.sparse.offsets + offset } }
  let c9 := { c8 with sparse := { c8.sparse with sizes := m.sparse.sizes } }
  (c9, m)

/-! ## `mat_get_size` -/

/-- Loop body of `mat_get_size`: `size *= m->dims[i]` in a `size_t` of `w` bits. -/
def size_step (w : Nat) (m : mat_t) (i size : Nat) : Nat :=
  (size * m.dims i) % 2 ^ w

/-- The function `mat_get_size(m)`.  The width `w` of `size_t` depends on the
target and is an argument; `size` starts as the constant 1 stored in a `size_t`. -/
def mat_get_size (w : Nat) (m : mat_t) : Nat :=
  for_loop (size_step w m) m.len_dims (1 % 2 ^ w)

/-! ## `mat_transpose` -/

/-- Body of the loop of `mat_transpose`, without the two counter updates: swap
`dims[start]` with `dims[end]`, then `strides[start]` with `strides[end]`. -/
def swap_step (m : mat_t) (start end_ : Nat) : mat_t :=
  let tmp := m.dims start
  let m1 := { m with dims := store m.dims start (m.dims end_) }
  let m2 := { m1 with dims := store m1.dims end_ tmp }
  let tmp2 := m2.strides start
  let m3 := { m2 with strides := store m2.strides start (m2.strides end_) }
  { m3 with strides := store m3.strides end_ tmp2 }

/-- The loop `while (start < end) { swap; start++; end--; }` of `mat_transpose`,
by recursion on `end`, which every iteration decreases by one; at `end = 0` the
test `start < end` is false. -/
def transpose_loop : mat_t → Nat → Nat → mat_t
  | m, _, 0 => m
  | m, start, e + 1 =>
    if start < e + 1 then transpose_loop (swap_step m start (e + 1)) (start + 1) e else m

/-- The function `mat_transpose(m)`; the result is `*m` after the call.  `end` starts
at `m->len_dims - 1` computed in `uint16_t`. -/
def mat_transpose (m : mat_t) : mat_t :=
  transpose_loop m 0 (u16_sub m.len_dims 1)

/-! ## `mat_ptr`, `mat_get_dim`, `mat_get_stride` -/

/-- The function `mat_ptr(m, idxs, len)`: the address `m->data + offset`. -/
def mat_ptr (m : mat_t) (idxs : Nat → Nat) (len : Nat) : Nat :=
  m.data + _offset_calc m idxs len

/-- The function `mat_get_dim(m, axis)`. -/
def mat_get_dim (m : mat_t) (axis : Nat) : Nat := m.dims axis

/-- The function `mat_get_stride(m, axis)`. -/
def mat_get_stride (m : mat_t) (axis : Nat) : Nat := m.strides axis

/-- The function `mat_set(m, v, idxs, len)` with its whole state: the buffer after the
store and `*m`, through which the body does not assign. -/
def mat_set_state (buf : List fixed) (m : mat_t) (v : fixed) (idxs : Nat → Nat) (len : Nat) :
    Option (List fixed × mat_t) :=
  match mat_set buf m v idxs len with
  | none => none
  | some buf2 => some (buf2, m)

/-! ## `mat_sameshape` and `mat_copy` -/

/-- The function `mat_sameshape(dst, src)`.  The state is the buffer, `*dst` and `*src`;
the result is that state when the call returns. -/
def mat_sameshape (buf : List fixed) (dst src : mat_t) : List fixed × mat_t × mat_t :=
  let d1 := { dst with dims := memcpy16 dst.dims src.dims 0 src.len_dims }
  let d2 := { d1 with strides := memcpy16 d1.strides src.strides 0 src.len_dims }
  let d3 := { d2 with sparse :=
    { d2.sparse with dims := memcpy16 d2.sparse.dims src.sparse.dims 0 src.sparse.len_dims } }
  let d4 := { d3 with len_dims := src.len_dims }
  let d5 := { d4 with sparse := { d4.sparse with len_dims := src.sparse.len_dims } }
  (buf, d5, src)

/-- The function `mat_copy(dst, src)`, on the same state as `mat_sameshape`. -/
def mat_copy (buf : List fixed) (dst src : mat_t) : List fixed × mat_t × mat_t :=
  let d1 := { dst with dims := memcpy16 dst.dims src.dims 0 src.len_dims }
  let d2 := { d1 with strides := memset1 d1.strides src.len_dims }
  let d3 := { d2 with strides := memcpy16 d2.strides src.strides 0 src.len_dims }
  let d4 := { d3 with sparse :=
    { d3.sparse with dims := memcpy16 d3.sparse.dims src.sparse.dims 0 src.sparse.len_dims } }
  let d5 := { d4 with data := src.data }
  let d6 := { d5 with len_dims := src.len_dims }
  let d7 := { d6 with sparse := { d6.sparse with len_dims := src.sparse.len_dims } }
  let d8 := { d7 with sparse := { d7.sparse with offsets := src.sparse.offsets } }
  let d9 := { d8 with sparse := { d8.sparse with sizes := src.sparse.sizes } }
  (buf, d9, src)

/-! ## `mat_same` and `mat_close` -/

/-- The loop `while (src_size != 0) { src_size--; if (src->data[src_size] !=
dst->data[src_size]) return false; }` of `mat_same`, followed by `return true`.  The
argument is `src_size` on entry; the diagnostic prints have no effect on the result. -/
def same_loop (buf : List fixed) (dst src : mat_t) : Nat → Option Bool
  | 0 => some true
  | k + 1 =>
    match buf.get? (src.data + k), buf.get? (dst.data + k) with
    | some a, some b => if a ≠ b then some false else same_loop buf dst src k
    | _, _ => none

/-- The function `mat_same(dst, src)`, for a `size_t` of `w` bits. -/
def mat_same (w : Nat) (buf : List fixed) (dst src : mat_t) : Option Bool :=
  let src_size := mat_get_size w src
  let dst_size := mat_get_size w dst
  if dst_size ≠ src_size then some false else same_loop buf dst src src_size

/-- The difference computed in the loop of `mat_close`: `src - dst` when `src > dst`,
else `dst - src`.  Modelled from the spec: subtraction of `fixed` values belongs to the
external fixed-point library and is taken without overflow. -/
def close_diff (a b : fixed) : fixed :=
  if a > b then a - b else b - a

/-- The loop of `mat_close`, followed by `return true`; `a` is `src->data[src_size]`
and `b` is `dst->data[src_size]`. -/
def close_loop (buf : List fixed) (dst src : mat_t) (close : fixed) : Nat → Option Bool
  | 0 => some true
  | k + 1 =>
    match buf.get? (src.data + k), buf.get? (dst.data + k) with
    | some a, some b =>
      if close_diff a b ≥ close then some false else close_loop buf dst src close k
    | _, _ => none

/-- The function `mat_close(dst, src, close)`, for a `size_t` of `w` bits. -/
def mat_close (w : Nat) (buf : List fixed) (dst src : mat_t) (close : fixed) : Option Bool :=
  let src_size := mat_get_size w src
  let dst_size := mat_get_size w dst
  if dst_size ≠ src_size then some false else close_loop buf dst src close src_size

/-! ## `mat_dump` and `mat_debug_dump` -/

/-- Modelled from the spec: the macro `MAT_GET_DIM(m, axis)` of `mat.h` (absent), the
front of `mat_get_dim`. -/
def MAT_GET_DIM (m : mat_t) (axis : Nat) : Nat := mat_get_dim m axis

/-- Modelled from the spec: the variadic macro `MAT_GET(m, ...)` of `mat.h` (absent), the
front of `mat_get`: it passes the listed indices as an array together with their
count. -/
def MAT_GET (buf : List fixed) (m : mat_t) (idxs : List Nat) : Option fixed :=
  mat_get buf m (arr idxs) idxs.length

/-- Body of the inner loop of `mat_debug_dump`: `*dest_ptr = MAT_GET(m, which, i, j);
dest_ptr++`.  The state is the destination buffer and `dest_ptr` counted in cells
from `dst`; a read or a store outside its buffer has no result. -/
def debug_dump_step (buf : List fixed) (m : mat_t) (which i j : Nat)
    (s : Option (List fixed × Nat)) : Option (List fixed × Nat) :=
  match s with
  | none => none
  | some (dest, p) =>
    match MAT_GET buf m [which, i, j] with
    | none => none
    | some v => if p < dest.length then some (dest.set p v, p + 1) else none

/-- The function `mat_debug_dump(m, which, dst)`.  The destination is a buffer of its
own; the result is `*m`, the source buffer and the destination when the call
returns. -/
def mat_debug_dump (buf : List fixed) (m : mat_t) (which : Nat) (dest : List fixed) :
    Option (mat_t × List fixed × List fixed) :=
  let rows := MAT_GET_DIM m (u16_sub m.len_dims 2)
  let cols := MAT_GET_DIM m (u16_sub m.len_dims 1)
  match for_loop (fun i s => for_loop (debug_dump_step buf m which i) cols s) rows
      (some (dest, 0)) with
  | none => none
  | some (dest2, _) => some (m, buf, dest2)

/-- Body of the inner loop of `mat_dump`: print `MAT_GET(m, i, j)` when the rank is 2,
else `MAT_GET(m, which, i, j)`.  The state is the sequence of element values printed
so far. -/
def dump_step (buf : List fixed) (m : mat_t) (which i j : Nat)
    (s : Option (List fixed)) : Option (List fixed) :=
  match s with
  | none => none
  | some out =>
    match (if m.len_dims = 2 then MAT_GET buf m [i, j] else MAT_GET buf m [which, i, j]) with
    | none => none
    | some v => some (out ++ [v])

/-- The function `mat_dump(m, which)`: the element values it prints, in order.  The
banner, the row and column counts and the line breaks are left out. -/
def mat_dump (buf : List fixed) (m : mat_t) (which : Nat) : Option (List fixed) :=
  let rows := MAT_GET_DIM m (u16_sub m.len_dims 2)
  let cols := MAT_GET_DIM m (u16_sub m.len_dims 1)
  for_loop (fun i s => for_loop (dump_step buf m which i) cols s) rows (some [])

/-- A descriptor with every cell zero, pointing at the start of the buffer. -/
def mat_zero : mat_t :=
  { dims := fun _ => 0, len_dims := 0, strides := fun _ => 0, data := 0,
    sparse := { dims := fun _ => 0, len_dims := 0, offsets := 0, sizes := 0 } }

/-! ## Quantities the specification speaks of -/

/-- The sum of `f i` over `i` in `[0, n)`. -/
def sum_lt (f : Nat → Nat) : Nat → Nat
  | 0 => 0
  | n + 1 => sum_lt f n + f n

/-- The product of `f i` over `i` in `[0, n)`. -/
def prod_lt (f : Nat → Nat) : Nat → Nat
  | 0 => 1
  | n + 1 => prod_lt f n * f n

/-- The row-major linear index `(...((idx[0]*D[1] + idx[1])*D[2] + idx[2])...) + idx[n-1]`
of the first `n` indices. -/
def row_major (D idx : Nat → Nat) : Nat → Nat
  | 0 => 0
  | n + 1 => row_major D idx n * D n + idx n

/-- The index vector of length `r` read back to front. -/
def rev_idx (idx : Nat → Nat) (r : Nat) : Nat → Nat :=
  fun i => idx (r - 1 - i)

/-- The array holding the `n` cells `a[0..n)` followed by the cells of `b`, that is
`a ++ b` for an index vector `a` of length `n`. -/
def cat_idx (a : Nat → Nat) (n : Nat) (b : Nat → Nat) : Nat → Nat :=
  fun i => if i < n then a i else b (i - n)

/-- The value of `running_stride` in `mat_reshape` after `k` iterations. -/
def running_stride (D : Nat → Nat) (len : Nat) : Nat → Nat
  | 0 => 1
  | k + 1 => (running_stride D len k * D (len - k - 1)) % U16

/-- The value `mat_get(m, {which, i, j})` belonging to slot `k = i * c + j` of a plane with
`c` columns. -/
def plane_value (buf : List fixed) (m : mat_t) (which c k : Nat) : Option fixed :=
  mat_get buf m (arr [which, k / c, k % c]) 3

/-! ## Concrete views used in the scenarios -/

/-- The buffer `[0, 1, 2, 3, 4, 5]`. -/
def buf6 : List fixed := [0, 1, 2, 3, 4, 5]

/-- The view over `buf6` reshaped to dims `[2, 3]`. -/
def view23 : mat_t := mat_reshape mat_zero (arr [2, 3]) 2

/-- A view reshaped to dims `[300, 300]`, over more than `2 ^ 16` elements. -/
def view300 : mat_t := mat_reshape mat_zero (arr [300, 300]) 2

/-- The buffer `0..11`. -/
def buf12 : List fixed := [0, 1, 2, 3, 4, 5, 6, 7, 8, 9, 10, 11]

/-- The view over `buf12` reshaped to dims `[2, 2, 3]`. -/
def view223 : mat_t := mat_reshape mat_zero (arr [2, 2, 3]) 3

/-- A view reshaped to dims `[2, 40000]`: 80000 elements, strides `[40000, 1]`. -/
def view_wide : mat_t := mat_reshape mat_zero (arr [2, 40000]) 2

/-- Five axes of length 65535: `65535 ^ 5` elements, more than `2 ^ 64`. -/
def view_huge : mat_t := mat_reshape mat_zero (arr [65535, 65535, 65535, 65535, 65535]) 5

/-- A buffer of 80000 elements, all 0 except a 1 in cell 4464. -/
def buf_wide : List fixed := (List.replicate 80000 0).set 4464 1

/-- A buffer holding the same three values twice. -/
def buf_pair : List fixed := [7, 8, 9, 7, 8, 9]

/-- A rank-1 view of three elements over the first half of `buf_pair`. -/
def pair_a : mat_t := mat_reshape mat_zero (arr [3]) 1

/-- A rank-2 view with dims `[1, 3]` over the second half of `buf_pair`. -/
def pair_b : mat_t := mat_reshape { mat_zero with data := 3 } (arr [1, 3]) 2

/-- A buffer of 520 elements holding `0, 1, ..., 519`. -/
def buf_iota : List fixed := (List.range 520).map Int.ofNat

/-- A destination buffer of six cells, all 0. -/
def dest6 : List fixed := [0, 0, 0, 0, 0, 0]

/-- The destination of `mat_debug_dump` after the call, when there is one. -/
def dump_dest (r : Option (mat_t × List fixed × List fixed)) : Option (List fixed) :=
  match r with
  | none => none
  | some s => some s.2.2

/-! ## Loop lemmas -/

theorem for_loop_succ {σ : Type} (body : Nat → σ → σ) (n : Nat) (s : σ) :
    for_loop body (n + 1) s = body n (for_loop body n s) := rfl

theorem sum_lt_eq_sum (f : Nat → Nat) (n : Nat) :
    sum_lt f n = ∑ i in Finset.range n, f i := by
  induction n with
  | zero => simp [sum_lt]
  | succ n ih => simp [sum_lt, Finset.sum_range_succ, ih]

theorem prod_lt_eq_prod (f : Nat → Nat) (n : Nat) :
    prod_lt f n = ∏ i in Finset.range n, f i := by
  induction n with
  | zero => simp [prod_lt]
  | succ n ih => simp [prod_lt, Finset.prod_range_succ, ih]

/-- Closed form of `_offset_calc`: the sum of the products, reduced modulo `2 ^ 16`. -/
theorem offset_calc_eq_sum_mod (m : mat_t) (idxs : Nat → Nat) (L : Nat) :
    _offset_calc m idxs L = sum_lt (fun i => m.strides i * idxs i) L % U16 := by
  induction L with
  | zero => simp [_offset_calc, for_loop, sum_lt]
  | succ n ih =>
    unfold _offset_calc at ih ⊢
    rw [for_loop_succ, ih]
    simp only [offset_step, sum_lt]
    exact Nat.mod_add_mod _ _ _

/-- State of the loop of `mat_reshape` after `n` of its `len` iterations. -/
theorem reshape_loop_state (m0 : mat_t) (D : Nat → Nat) (len n : Nat) (hn : n ≤ len) :
    for_loop (reshape_step D len) n (m0, 1) =
      ({ m0 with
          dims := fun j => if j < n then D j else m0.dims j,
          strides := fun j =>
            if len - n ≤ j ∧ j < len then running_stride D len (len - 1 - j)
            else m0.strides j },
        running_stride D len n) := by
  induction n with
  | zero =>
    have h : ∀ j, ¬ (len ≤ j ∧ j < len) := by intro j; omega
    simp [for_loop, running_stride, h]
  | succ n ih =>
    rw [for_loop_succ, ih (by omega)]
    simp only [reshape_step, running_stride]
    refine Prod.ext ?_ rfl
    simp only
    congr 1
    · funext j
      simp only [store]
      by_cases h1 : j = n
      · subst h1; simp
      · by_cases h2 : j < n
        · have : j < n + 1 := by omega
          simp [h1, h2, this]
        · have : ¬ j < n + 1 := by omega
          simp [h1, h2, this]
    · funext j
      simp only [store]
      by_cases h1 : j = len - n - 1
      · have h3 : len - (n + 1) ≤ j ∧ j < len := by omega
        have h4 : len - 1 - j = n := by omega
        simp [h1, h3, h4]
        rw [if_pos (by omega)]
        congr 1
        omega
      · by_cases h2 : len - n ≤ j ∧ j < len
        · have h3 : len - (n + 1) ≤ j ∧ j < len := by omega
          rw [if_neg h1, if_pos h2, if_pos h3]
        · have h3 : ¬ (len - (n + 1) ≤ j ∧ j < len) := by omega
          rw [if_neg h1, if_neg h2, if_neg h3]

/-- Fields of the view left by `mat_reshape`. -/
theorem mat_reshape_eq (m : mat_t) (D : Nat → Nat) (len : Nat) :
    mat_reshape m D len =
      { m with
          len_dims := len,
          dims := fun j => if j < len then D j else m.dims j,
          strides := fun j =>
            if j < len then running_stride D len (len - 1 - j)
            else memset1 m.strides (len + 1) j } := by
  unfold mat_reshape
  simp only
  rw [reshape_loop_state _ D len len (le_refl _)]
  simp only
  congr 1
  funext j
  simp

/-! ## Mixed-radix arithmetic behind the row-major layout -/

theorem prod_lt_mono (f : Nat → Nat) (n : Nat) (hf : ∀ j, j < n → 1 ≤ f j) :
    ∀ k, k ≤ n → prod_lt f k ≤ prod_lt f n := by
  induction n with
  | zero => intro k hk; have : k = 0 := by omega
            subst this; exact le_refl _
  | succ n ih =>
    intro k hk
    rcases Nat.lt_or_ge k (n + 1) with h | h
    · have h1 := ih (fun j hj => hf j (by omega)) k (by omega)
      have h2 := hf n (by omega)
      calc prod_lt f k ≤ prod_lt f n := h1
        _ = prod_lt f n * 1 := (Nat.mul_one _).symm
        _ ≤ prod_lt f n * f n := Nat.mul_le_mul_left _ h2
    · have : k = n + 1 := by omega
      subst this; exact le_refl _

theorem prod_lt_reflect (D : Nat → Nat) (len : Nat) :
    prod_lt (fun j => D (len - 1 - j)) len = prod_lt D len := by
  rw [prod_lt_eq_prod, prod_lt_eq_prod]
  exact Finset.prod_range_reflect D len

theorem sum_lt_reflect (f : Nat → Nat) (len : Nat) :
    sum_lt (fun j => f (len - 1 - j)) len = sum_lt f len := by
  rw [sum_lt_eq_sum, sum_lt_eq_sum]
  exact Finset.sum_range_reflect f len

theorem sum_lt_congr (f g : Nat → Nat) (n : Nat) (h : ∀ i, i < n → f i = g i) :
    sum_lt f n = sum_lt g n := by
  induction n with
  | zero => rfl
  | succ n ih =>
    simp only [sum_lt]
    rw [ih (fun i hi => h i (by omega)), h n (by omega)]

/-- A number written with digits `J k < E k`, least significant first, is below the
product of the radices. -/
theorem mixed_radix_lt (E J : Nat → Nat) (n : Nat) (h : ∀ k, k < n → J k < E k) :
    sum_lt (fun k => prod_lt E k * J k) n < prod_lt E n := by
  induction n with
  | zero => simp [sum_lt, prod_lt]
  | succ n ih =>
    have h1 := ih (fun k hk => h k (by omega))
    have h2 := h n (by omega)
    simp only [sum_lt, prod_lt]
    calc sum_lt (fun k => prod_lt E k * J k) n + prod_lt E n * J n
        < prod_lt E n + prod_lt E n * J n := by omega
      _ = prod_lt E n * (J n + 1) := by ring
      _ ≤ prod_lt E n * E n := Nat.mul_le_mul_left _ h2

/-- Horner evaluation from the leading index agrees with the digit sum taken from the
trailing index. -/
theorem row_major_eq_digits (D idx : Nat → Nat) (len : Nat) :
    ∀ n, n ≤ len →
      row_major D idx n * prod_lt (fun j => D (len - 1 - j)) (len - n)
        + sum_lt (fun k => prod_lt (fun j => D (len - 1 - j)) k * idx (len - 1 - k)) (len - n)
      = sum_lt (fun k => prod_lt (fun j => D (len - 1 - j)) k * idx (len - 1 - k)) len := by
  intro n
  induction n with
  | zero => intro _; simp [row_major]
  | succ n ih =>
    intro hn
    have h := ih (by omega)
    have hk : len - n = (len - (n + 1)) + 1 := by omega
    have hi : len - 1 - (len - (n + 1)) = n := by omega
    rw [hk] at h
    simp only [sum_lt, prod_lt, hi] at h
    simp only [row_major]
    rw [← h]
    ring

/-- With every dimension at least 1 and the product below `2 ^ 16`, the running stride
of `mat_reshape` never wraps: it is the product of the trailing dimensions. -/
theorem running_stride_eq (D : Nat → Nat) (len : Nat) (hD : ∀ i, i < len → 1 ≤ D i)
    (hP : prod_lt D len < U16) :
    ∀ k, k ≤ len → running_stride D len k = prod_lt (fun j => D (len - 1 - j)) k := by
  intro k
  induction k with
  | zero => intro _; rfl
  | succ k ih =>
    intro hk
    have hE : ∀ j, j < len → 1 ≤ (fun j => D (len - 1 - j)) j := by
      intro j hj; exact hD _ (by omega)
    have hle := prod_lt_mono _ len hE (k + 1) hk
    rw [prod_lt_reflect] at hle
    have hlt : prod_lt (fun j => D (len - 1 - j)) (k + 1) < U16 := lt_of_le_of_lt hle hP
    have hidx : len - k - 1 = len - 1 - k := by omega
    simp only [running_stride]
    rw [ih (by omega), hidx]
    exact Nat.mod_eq_of_lt hlt

/-- On a view reshaped to dims `D` with product below `2 ^ 16`, an in-range index vector
has the row-major linear index as its offset, and that offset is below the product. -/
theorem reshape_offset (m : mat_t) (D idx : Nat → Nat) (len : Nat)
    (hP : prod_lt D len < U16) (hidx : ∀ i, i < len → idx i < D i) :
    _offset_calc (mat_reshape m D len) idx len = row_major D idx len ∧
    row_major D idx len < prod_lt D len := by
  have hD : ∀ i, i < len → 1 ≤ D i := fun i hi => by have := hidx i hi; omega
  have hsum : sum_lt (fun i => (mat_reshape m D len).strides i * idx i) len
      = sum_lt (fun k => prod_lt (fun j => D (len - 1 - j)) k * idx (len - 1 - k)) len := by
    rw [← sum_lt_reflect (fun k => prod_lt (fun j => D (len - 1 - j)) k * idx (len - 1 - k)) len]
    apply sum_lt_congr
    intro i hi
    have h1 : len - 1 - (len - 1 - i) = i := by omega
    rw [mat_reshape_eq]
    simp only [hi, if_true, h1]
    rw [running_stride_eq D len hD hP _ (by omega)]
  have hrm := row_major_eq_digits D idx len len (le_refl _)
  simp only [Nat.sub_self, prod_lt, sum_lt, Nat.mul_one, Nat.add_zero] at hrm
  have hlt := mixed_radix_lt (fun j => D (len - 1 - j)) (fun k => idx (len - 1 - k)) len
    (fun k hk => hidx _ (by omega))
  rw [prod_lt_reflect] at hlt
  rw [← hrm] at hlt
  refine ⟨?_, hlt⟩
  rw [offset_calc_eq_sum_mod, hsum, ← hrm]
  exact Nat.mod_eq_of_lt (lt_trans hlt hP)

/-- The offset of an in-range index vector on a reshaped view lies inside any buffer
that holds the product of the dims, whether or not that product reaches `2 ^ 16`. -/
theorem reshape_offset_in_buffer (m : mat_t) (D idx : Nat → Nat) (len n : Nat)
    (hidx : ∀ i, i < len → idx i < D i) (hfit : m.data + prod_lt D len ≤ n) :
    (mat_reshape m D len).data + _offset_calc (mat_reshape m D len) idx len < n := by
  have hdata : (mat_reshape m D len).data = m.data := by rw [mat_reshape_eq]
  rw [hdata]
  rcases Nat.lt_or_ge (prod_lt D len) U16 with hP | hP
  · have h := reshape_offset m D idx len hP hidx
    rw [h.1]
    have := h.2
    omega
  · have h : _offset_calc (mat_reshape m D len) idx len < U16 := by
      rw [offset_calc_eq_sum_mod]
      exact Nat.mod_lt _ (by decide)
    omega

/-! ## C1: `mat_reshape` lays the strides out in row-major order -/

/-- C1: for a dims array `D` of length `len` with `1 ≤ len ≤ MAX_RANK`, after
`mat_reshape(m, D, len)` the rank is `len`, `dims[i] = D[i]` for every `i < len`, the
last stride is 1, and `strides[i] = D[i+1] * strides[i+1]` in `uint16_t` arithmetic
for every `i < len - 1`. -/
theorem mat_reshape_row_major (m : mat_t) (D : Nat → Nat) (len : Nat)
    (h1 : 1 ≤ len) (_h2 : len ≤ MAX_RANK) :
    (mat_reshape m D len).len_dims = len ∧
    (∀ i, i < len → (mat_reshape m D len).dims i = D i) ∧
    (mat_reshape m D len).strides (len - 1) = 1 ∧
    (∀ i, i < len - 1 →
      (mat_reshape m D len).strides i
        = (D (i + 1) * (mat_reshape m D len).strides (i + 1)) % U16) := by
  rw [mat_reshape_eq]
  refine ⟨rfl, ?_, ?_, ?_⟩
  · intro i hi
    simp [hi]
  · have h : len - 1 < len := by omega
    simp [h, running_stride]
  · intro i hi
    have ha : i < len := by omega
    have hb : i + 1 < len := by omega
    have hc : len - 1 - i = (len - 1 - (i + 1)) + 1 := by omega
    have hd : len - (len - 1 - (i + 1)) - 1 = i + 1 := by omega
    simp only [ha, hb, if_true]
    rw [hc, running_stride, hd, Nat.mul_comm]

/-- C1 at dims `[2, 3, 4]`: the strides are `[12, 4, 1]`. -/
theorem mat_reshape_row_major_witness :
    (mat_reshape mat_zero (arr [2, 3, 4]) 3).len_dims = 3 ∧
    (∀ i, i < 3 → (mat_reshape mat_zero (arr [2, 3, 4]) 3).dims i = arr [2, 3, 4] i) ∧
    (mat_reshape mat_zero (arr [2, 3, 4]) 3).strides (3 - 1) = 1 ∧
    (∀ i, i < 3 - 1 →
      (mat_reshape mat_zero (arr [2, 3, 4]) 3).strides i
        = (arr [2, 3, 4] (i + 1) * (mat_reshape mat_zero (arr [2, 3, 4]) 3).strides (i + 1)) % U16) :=
  mat_reshape_row_major mat_zero (arr [2, 3, 4]) 3 (by decide) (by decide)

/-! ## C2: `_offset_calc` -/

/-- C2 as stated fails: on the view reshaped to `[300, 300]` (strides `[300, 1]`) the
index vector `{250, 0}` of length `2 ≤ rank` has the sum `300 * 250 = 75000`, and
`_offset_calc` returns `75000 - 65536 = 9464`. -/
theorem offset_calc_sum_counterexample :
    2 ≤ view300.len_dims ∧
    sum_lt (fun i => view300.strides i * arr [250, 0] i) 2 = 75000 ∧
    _offset_calc view300 (arr [250, 0]) 2 = 9464 ∧
    _offset_calc view300 (arr [250, 0]) 2
      ≠ sum_lt (fun i => view300.strides i * arr [250, 0] i) 2 := by
  decide

/-- C2 (amended): for every view `m`, index vector `idxs` and length `L ≤ m.len_dims`,
`_offset_calc(m, idxs, L)` is the sum over `i` in `[0, L)` of `strides[i] * idxs[i]`
reduced modulo `2 ^ 16`; it is that sum itself whenever the sum is below `2 ^ 16`
(and 0 when `L = 0`). -/
theorem offset_calc_sum (m : mat_t) (idxs : Nat → Nat) (L : Nat) (_hL : L ≤ m.len_dims) :
    _offset_calc m idxs L = sum_lt (fun i => m.strides i * idxs i) L % U16 ∧
    (sum_lt (fun i => m.strides i * idxs i) L < U16 →
      _offset_calc m idxs L = sum_lt (fun i => m.strides i * idxs i) L) ∧
    _offset_calc m idxs 0 = 0 := by
  refine ⟨offset_calc_eq_sum_mod m idxs L, ?_, rfl⟩
  intro h
  rw [offset_calc_eq_sum_mod, Nat.mod_eq_of_lt h]

/-- C2 (amended) on the view reshaped to `[2, 3]` at the index vector `{1, 2}`. -/
theorem offset_calc_sum_witness :
    _offset_calc view23 (arr [1, 2]) 2
        = sum_lt (fun i => view23.strides i * arr [1, 2] i) 2 % U16 ∧
    (sum_lt (fun i => view23.strides i * arr [1, 2] i) 2 < U16 →
      _offset_calc view23 (arr [1, 2]) 2
        = sum_lt (fun i => view23.strides i * arr [1, 2] i) 2) ∧
    _offset_calc view23 (arr [1, 2]) 0 = 0 :=
  offset_calc_sum view23 (arr [1, 2]) 2 (by decide)

/-! ## C3: `mat_get` on a reshaped view reads the row-major element -/

/-- C3: on a view reshaped by `mat_reshape` to dims `D` of length `len ≥ 1` whose
product is below `2 ^ 16` and fits the buffer, for every index vector with
`idx[i] < D[i]` for all `i < len`, `mat_get(m, idx, len)` is the buffer element at the
row-major linear index `(...(idx[0]*D[1] + idx[1])*D[2] + ...) + idx[len-1]`, which
lies inside the buffer. -/
theorem mat_get_row_major (buf : List fixed) (m : mat_t) (D idx : Nat → Nat) (len : Nat)
    (_h1 : 1 ≤ len) (hP : prod_lt D len < U16)
    (hfit : m.data + prod_lt D len ≤ buf.length)
    (hidx : ∀ i, i < len → idx i < D i) :
    m.data + row_major D idx len < buf.length ∧
    mat_get buf (mat_reshape m D len) idx len = buf.get? (m.data + row_major D idx len) := by
  have h := reshape_offset m D idx len hP hidx
  have hdata : (mat_reshape m D len).data = m.data := by rw [mat_reshape_eq]
  refine ⟨?_, ?_⟩
  · have := h.2
    omega
  · unfold mat_get
    rw [h.1, hdata]

/-- C3 on the buffer `[0, 1, 2, 3, 4, 5]` reshaped to `[2, 3]`: `mat_get({1, 2})` is 5 and
`mat_get({0, 0})` is 0. -/
theorem mat_get_row_major_witness :
    (0 + row_major (arr [2, 3]) (arr [1, 2]) 2 < buf6.length ∧
      mat_get buf6 (mat_reshape mat_zero (arr [2, 3]) 2) (arr [1, 2]) 2
        = buf6.get? (0 + row_major (arr [2, 3]) (arr [1, 2]) 2)) ∧
    mat_get buf6 (mat_reshape mat_zero (arr [2, 3]) 2) (arr [1, 2]) 2 = some 5 ∧
    mat_get buf6 (mat_reshape mat_zero (arr [2, 3]) 2) (arr [0, 0]) 2 = some 0 :=
  ⟨mat_get_row_major buf6 mat_zero (arr [2, 3]) (arr [1, 2]) 2 (by decide) (by decide)
      (by decide) (by decide),
    by decide, by decide⟩

/-! ## C4: reading back what was written -/

/-- C4: on a view reshaped to dims `D` over a buffer that holds the product of the dims,
for every index vector with `idx[i] < D[i]` (length = rank) and every value `v`,
`mat_set(v, idx)` stores into the buffer and `mat_get(idx)` evaluated afterwards
returns `v`. -/
theorem mat_get_after_set (buf : List fixed) (m : mat_t) (D idx : Nat → Nat) (len : Nat)
    (v : fixed) (hidx : ∀ i, i < len → idx i < D i)
    (hfit : m.data + prod_lt D len ≤ buf.length) :
    ∃ buf2, mat_set buf (mat_reshape m D len) v idx len = some buf2 ∧
      mat_get buf2 (mat_reshape m D len) idx len = some v := by
  have hin := reshape_offset_in_buffer m D idx len buf.length hidx hfit
  refine ⟨buf.set ((mat_reshape m D len).data + _offset_calc (mat_reshape m D len) idx len) v,
    ?_, ?_⟩
  · unfold mat_set
    rw [if_pos hin]
  · unfold mat_get
    simp [hin]

/-- C4 on the buffer `[0, 1, 2, 3, 4, 5]` reshaped to `[2, 3]`, writing 42 at `{1, 0}`. -/
theorem mat_get_after_set_witness :
    ∃ buf2, mat_set buf6 (mat_reshape mat_zero (arr [2, 3]) 2) 42 (arr [1, 0]) 2 = some buf2 ∧
      mat_get buf2 (mat_reshape mat_zero (arr [2, 3]) 2) (arr [1, 0]) 2 = some 42 :=
  mat_get_after_set buf6 mat_zero (arr [2, 3]) (arr [1, 0]) 2 42 (by decide) (by decide)

/-! ## C5: `mat_constrain` -/

theorem u16_sub_eq (a b : Nat) (hb : b ≤ a) (ha : a < U16) : u16_sub a b = a - b := by
  unfold u16_sub U16 at *
  omega

/-- Fields of the view returned by `mat_constrain`. -/
theorem mat_constrain_fields (c_m m : mat_t) (idxs : Nat → Nat) (len : Nat) :
    (mat_constrain c_m m idxs len).1.len_dims = u16_sub m.len_dims len ∧
    (∀ i, i < u16_sub m.len_dims len →
      (mat_constrain c_m m idxs len).1.dims i = m.dims (len + i) ∧
      (mat_constrain c_m m idxs len).1.strides i = m.strides (len + i)) ∧
    (mat_constrain c_m m idxs len).1.data = m.data + _offset_calc m idxs len := by
  refine ⟨rfl, ?_, rfl⟩
  intro i hi
  simp [mat_constrain, memcpy16, hi]

/-- C5: for a view `m` of rank `r` (a `uint16_t`) and `len < r`, `mat_constrain(m, idxs, len)`
returns a view of rank `r - len` whose dims and strides are the tails
`dims[len + i]`, `strides[len + i]` for `i < r - len`, and whose data reference is
`m.data` advanced by `_offset_calc(m, idxs, len)` elements; `*m` is unchanged. -/
theorem mat_constrain_tail (c_m m : mat_t) (idxs : Nat → Nat) (len : Nat)
    (hlen : len < m.len_dims) (hr : m.len_dims < U16) :
    (mat_constrain c_m m idxs len).1.len_dims = m.len_dims - len ∧
    (∀ i, i < m.len_dims - len →
      (mat_constrain c_m m idxs len).1.dims i = m.dims (len + i) ∧
      (mat_constrain c_m m idxs len).1.strides i = m.strides (len + i)) ∧
    (mat_constrain c_m m idxs len).1.data = m.data + _offset_calc m idxs len ∧
    (mat_constrain c_m m idxs len).2 = m := by
  have h := mat_constrain_fields c_m m idxs len
  rw [u16_sub_eq _ _ (by omega) hr] at h
  exact ⟨h.1, h.2.1, h.2.2, rfl⟩

/-- C5 on the view with dims `[2, 2, 3]` constrained by `{1}`: dims `[2, 3]`, strides `[3, 1]`,
data advanced by 6. -/
theorem mat_constrain_tail_witness :
    ((mat_constrain mat_zero view223 (arr [1]) 1).1.len_dims = view223.len_dims - 1 ∧
    (∀ i, i < view223.len_dims - 1 →
      (mat_constrain mat_zero view223 (arr [1]) 1).1.dims i = view223.dims (1 + i) ∧
      (mat_constrain mat_zero view223 (arr [1]) 1).1.strides i = view223.strides (1 + i)) ∧
    (mat_constrain mat_zero view223 (arr [1]) 1).1.data
      = view223.data + _offset_calc view223 (arr [1]) 1 ∧
    (mat_constrain mat_zero view223 (arr [1]) 1).2 = view223) ∧
    (mat_constrain mat_zero view223 (arr [1]) 1).1.len_dims = 2 ∧
    (mat_constrain mat_zero view223 (arr [1]) 1).1.dims 0 = 2 ∧
    (mat_constrain mat_zero view223 (arr [1]) 1).1.dims 1 = 3 ∧
    (mat_constrain mat_zero view223 (arr [1]) 1).1.data = 6 :=
  ⟨mat_constrain_tail mat_zero view223 (arr [1]) 1 (by decide) (by decide),
    by decide, by decide, by decide, by decide⟩

/-! ## C6: reading through a constrained view -/

theorem buf_wide_length : buf_wide.length = 80000 := by
  unfold buf_wide
  rw [List.length_set, List.length_replicate]

theorem buf_wide_get_70000 : buf_wide.get? 70000 = some 0 := by
  unfold buf_wide
  rw [List.get?_eq_getElem?, List.getElem?_set_ne (by decide), List.getElem?_replicate]
  rw [if_pos (by decide)]

theorem buf_wide_get_4464 : buf_wide.get? 4464 = some 1 := by
  unfold buf_wide
  rw [List.get?_eq_getElem?, List.getElem?_set_self (by rw [List.length_replicate]; decide)]

theorem sum_lt_add (f : Nat → Nat) (a b : Nat) :
    sum_lt f (a + b) = sum_lt f a + sum_lt (fun i => f (a + i)) b := by
  induction b with
  | zero => rfl
  | succ b ih =>
    have h : a + (b + 1) = (a + b) + 1 := by omega
    rw [h]
    simp only [sum_lt]
    rw [ih]
    omega

/-- C6 as stated fails once the offsets pass `2 ^ 16`: on the view with dims `[2, 40000]`
over an 80000-element buffer, constraining by `{1}` advances the data reference by
40000, so `mat_get(s, {30000})` reads cell 70000, while `mat_get(v, {1, 30000})`
computes `70000 - 65536 = 4464` in its `uint16_t` accumulator and reads cell 4464. -/
theorem mat_get_constrain_counterexample :
    1 < view_wide.len_dims ∧
    view_wide.data + prod_lt view_wide.dims view_wide.len_dims ≤ buf_wide.length ∧
    (∀ i, i < 1 → arr [30000] i < (mat_constrain mat_zero view_wide (arr [1]) 1).1.dims i) ∧
    mat_get buf_wide (mat_constrain mat_zero view_wide (arr [1]) 1).1 (arr [30000]) 1 = some 0 ∧
    mat_get buf_wide view_wide (cat_idx (arr [1]) 1 (arr [30000])) 2 = some 1 ∧
    mat_get buf_wide (mat_constrain mat_zero view_wide (arr [1]) 1).1 (arr [30000]) 1
      ≠ mat_get buf_wide view_wide (cat_idx (arr [1]) 1 (arr [30000])) 2 := by
  have ha : (mat_constrain mat_zero view_wide (arr [1]) 1).1.data
      + _offset_calc (mat_constrain mat_zero view_wide (arr [1]) 1).1 (arr [30000]) 1
      = 70000 := by decide
  have hb : view_wide.data + _offset_calc view_wide (cat_idx (arr [1]) 1 (arr [30000])) 2
      = 4464 := by decide
  have h1 : mat_get buf_wide (mat_constrain mat_zero view_wide (arr [1]) 1).1 (arr [30000]) 1
      = some 0 := by
    unfold mat_get
    rw [ha]
    exact buf_wide_get_70000
  have h2 : mat_get buf_wide view_wide (cat_idx (arr [1]) 1 (arr [30000])) 2 = some 1 := by
    unfold mat_get
    rw [hb]
    exact buf_wide_get_4464
  refine ⟨by decide, ?_, by decide, h1, h2, ?_⟩
  · have hp : view_wide.data + prod_lt view_wide.dims view_wide.len_dims = 80000 := by decide
    rw [hp, buf_wide_length]
  · rw [h1, h2]
    decide

/-- C6 (amended): for a view `v` of rank `r`, `len < r` and `s = mat_constrain(v, idxs1, len)`,
for every index vector `idxs2` valid on `s` (`idxs2[i] < s.dims[i]`, length `rank(s)`),
provided the offset sum of `idxs1 ++ idxs2` on `v` stays below `2 ^ 16`,
`mat_get(s, idxs2) = mat_get(v, idxs1 ++ idxs2)`. -/
theorem mat_get_constrain (buf : List fixed) (c_m v : mat_t) (idxs1 idxs2 : Nat → Nat)
    (len : Nat) (hlen : len < v.len_dims) (hr : v.len_dims < U16)
    (_hvalid : ∀ i, i < (mat_constrain c_m v idxs1 len).1.len_dims →
      idxs2 i < (mat_constrain c_m v idxs1 len).1.dims i)
    (hnowrap : sum_lt (fun i => v.strides i * cat_idx idxs1 len idxs2 i) v.len_dims < U16) :
    mat_get buf (mat_constrain c_m v idxs1 len).1 idxs2 (mat_constrain c_m v idxs1 len).1.len_dims
      = mat_get buf v (cat_idx idxs1 len idxs2) v.len_dims := by
  have hf := mat_constrain_fields c_m v idxs1 len
  rw [u16_sub_eq _ _ (by omega) hr] at hf
  obtain ⟨hrank, htail, hdata⟩ := hf
  have hsplit : v.len_dims = len + (v.len_dims - len) := by omega
  have hsum := sum_lt_add (fun i => v.strides i * cat_idx idxs1 len idxs2 i) len
    (v.len_dims - len)
  rw [← hsplit] at hsum
  have h1 : sum_lt (fun i => v.strides i * cat_idx idxs1 len idxs2 i) len
      = sum_lt (fun i => v.strides i * idxs1 i) len := by
    apply sum_lt_congr
    intro i hi
    simp [cat_idx, hi]
  have h2 : sum_lt (fun i => (fun i => v.strides i * cat_idx idxs1 len idxs2 i) (len + i))
        (v.len_dims - len)
      = sum_lt (fun i => (mat_constrain c_m v idxs1 len).1.strides i * idxs2 i)
        (v.len_dims - len) := by
    apply sum_lt_congr
    intro i hi
    rw [(htail i hi).2]
    simp [cat_idx]
  rw [h1, h2] at hsum
  unfold mat_get
  rw [hdata, hrank, offset_calc_eq_sum_mod, offset_calc_eq_sum_mod, offset_calc_eq_sum_mod,
    Nat.mod_eq_of_lt (by omega), Nat.mod_eq_of_lt (by omega), Nat.mod_eq_of_lt hnowrap, hsum,
    Nat.add_assoc]

/-- C6 (amended) on dims `[2, 2, 3]` over the buffer `0..11`: the view constrained by `{1}`
has dims `[2, 3]` and `get(sub, {1, 2}) = get(parent, {1, 1, 2}) = 11`. -/
theorem mat_get_constrain_witness :
    mat_get buf12 (mat_constrain mat_zero view223 (arr [1]) 1).1 (arr [1, 2])
        (mat_constrain mat_zero view223 (arr [1]) 1).1.len_dims
      = mat_get buf12 view223 (cat_idx (arr [1]) 1 (arr [1, 2])) view223.len_dims ∧
    mat_get buf12 view223 (cat_idx (arr [1]) 1 (arr [1, 2])) view223.len_dims = some 11 ∧
    mat_get buf12 view223 (arr [1, 1, 2]) 3 = some 11 :=
  ⟨mat_get_constrain buf12 mat_zero view223 (arr [1]) (arr [1, 2]) 1 (by decide) (by decide)
      (by decide) (by decide),
    by decide, by decide⟩

/-! ## C7, C8, C9: `mat_transpose` -/

/-- The reversal of the cells `start..end_` of an array, other cells kept. -/
theorem transpose_loop_eq (e : Nat) : ∀ (m : mat_t) (s : Nat),
    transpose_loop m s e =
      { m with
          dims := fun j => if s ≤ j ∧ j ≤ e then m.dims (s + e - j) else m.dims j,
          strides := fun j => if s ≤ j ∧ j ≤ e then m.strides (s + e - j) else m.strides j } := by
  induction e with
  | zero =>
    intro m s
    cases m with
    | mk dims len_dims strides data sparse =>
      simp only [transpose_loop, mat_t.mk.injEq, and_true, true_and]
      constructor
      · funext j
        by_cases h : s ≤ j ∧ j ≤ 0
        · have : s + 0 - j = j := by omega
          rw [if_pos h, this]
        · rw [if_neg h]
      · funext j
        by_cases h : s ≤ j ∧ j ≤ 0
        · have : s + 0 - j = j := by omega
          rw [if_pos h, this]
        · rw [if_neg h]
  | succ e ih =>
    intro m s
    cases m with
    | mk dims len_dims strides data sparse =>
      by_cases hs : s < e + 1
      · rw [transpose_loop, if_pos hs, ih]
        simp only [swap_step, store, mat_t.mk.injEq, and_true, true_and]
        constructor
        · funext j
          by_cases h : s + 1 ≤ j ∧ j ≤ e
          · have h1 : s ≤ j ∧ j ≤ e + 1 := by omega
            have h2 : s + 1 + e - j ≠ e + 1 := by omega
            have h3 : s + 1 + e - j ≠ s := by omega
            have h4 : s + 1 + e - j = s + (e + 1) - j := by omega
            rw [if_pos h, if_pos h1, if_neg h2, if_neg h3, h4]
          · rw [if_neg h]
            by_cases h5 : j = e + 1
            · have h1 : s ≤ j ∧ j ≤ e + 1 := by omega
              have h6 : s + (e + 1) - j = s := by omega
              rw [if_pos h5, if_pos h1, h6]
            · by_cases h7 : j = s
              · have h1 : s ≤ j ∧ j ≤ e + 1 := by omega
                have h6 : s + (e + 1) - j = e + 1 := by omega
                rw [if_neg h5, if_pos h7, if_pos h1, h6]
              · have h1 : ¬ (s ≤ j ∧ j ≤ e + 1) := by omega
                rw [if_neg h5, if_neg h7, if_neg h1]
        · funext j
          by_cases h : s + 1 ≤ j ∧ j ≤ e
          · have h1 : s ≤ j ∧ j ≤ e + 1 := by omega
            have h2 : s + 1 + e - j ≠ e + 1 := by omega
            have h3 : s + 1 + e - j ≠ s := by omega
            have h4 : s + 1 + e - j = s + (e + 1) - j := by omega
            rw [if_pos h, if_pos h1, if_neg h2, if_neg h3, h4]
          · rw [if_neg h]
            by_cases h5 : j = e + 1
            · have h1 : s ≤ j ∧ j ≤ e + 1 := by omega
              have h6 : s + (e + 1) - j = s := by omega
              rw [if_pos h5, if_pos h1, h6]
            · by_cases h7 : j = s
              · have h1 : s ≤ j ∧ j ≤ e + 1 := by omega
                have h6 : s + (e + 1) - j = e + 1 := by omega
                rw [if_neg h5, if_pos h7, if_pos h1, h6]
              · have h1 : ¬ (s ≤ j ∧ j ≤ e + 1) := by omega
                rw [if_neg h5, if_neg h7, if_neg h1]
      · rw [transpose_loop, if_neg hs]
        simp only [mat_t.mk.injEq, and_true, true_and]
        constructor
        · funext j
          by_cases h : s ≤ j ∧ j ≤ e + 1
          · have : s + (e + 1) - j = j := by omega
            rw [if_pos h, this]
          · rw [if_neg h]
        · funext j
          by_cases h : s ≤ j ∧ j ≤ e + 1
          · have : s + (e + 1) - j = j := by omega
            rw [if_pos h, this]
          · rw [if_neg h]

/-- Fields of the view left by `mat_transpose`. -/
theorem mat_transpose_eq (m : mat_t) :
    mat_transpose m =
      { m with
          dims := fun j =>
            if j ≤ u16_sub m.len_dims 1 then m.dims (u16_sub m.len_dims 1 - j) else m.dims j,
          strides := fun j =>
            if j ≤ u16_sub m.len_dims 1 then m.strides (u16_sub m.len_dims 1 - j)
            else m.strides j } := by
  unfold mat_transpose
  rw [transpose_loop_eq]
  simp

/-- C7: for a view `m` of rank `r` (a `uint16_t`), after `mat_transpose(m)` the rank is
unchanged, `dims[i]` is the old `dims[r-1-i]` and `strides[i]` the old `strides[r-1-i]`
for every `i < r`, and the data reference is unchanged. -/
theorem mat_transpose_reverses (m : mat_t) (hr : m.len_dims < U16) :
    (mat_transpose m).len_dims = m.len_dims ∧
    (∀ i, i < m.len_dims →
      (mat_transpose m).dims i = m.dims (m.len_dims - 1 - i) ∧
      (mat_transpose m).strides i = m.strides (m.len_dims - 1 - i)) ∧
    (mat_transpose m).data = m.data := by
  rw [mat_transpose_eq]
  refine ⟨rfl, ?_, rfl⟩
  intro i hi
  have he : u16_sub m.len_dims 1 = m.len_dims - 1 := u16_sub_eq _ _ (by omega) hr
  have hle : i ≤ m.len_dims - 1 := by omega
  simp only [he, hle, if_true, and_self]

/-- C7 on the view with dims `[2, 3]` and strides `[3, 1]`: after the call the dims are
`[3, 2]` and the strides `[1, 3]`. -/
theorem mat_transpose_reverses_witness :
    ((mat_transpose view23).len_dims = view23.len_dims ∧
    (∀ i, i < view23.len_dims →
      (mat_transpose view23).dims i = view23.dims (view23.len_dims - 1 - i) ∧
      (mat_transpose view23).strides i = view23.strides (view23.len_dims - 1 - i)) ∧
    (mat_transpose view23).data = view23.data) ∧
    (mat_transpose view23).dims 0 = 3 ∧ (mat_transpose view23).dims 1 = 2 ∧
    (mat_transpose view23).strides 0 = 1 ∧ (mat_transpose view23).strides 1 = 3 :=
  ⟨mat_transpose_reverses view23 (by decide), by decide, by decide, by decide, by decide⟩

/-- C8: applying `mat_transpose` twice restores the original dims and strides exactly;
the whole descriptor is the original one. -/
theorem mat_transpose_involution (m : mat_t) :
    (mat_transpose (mat_transpose m)).dims = m.dims ∧
    (mat_transpose (mat_transpose m)).strides = m.strides ∧
    mat_transpose (mat_transpose m) = m := by
  have h : mat_transpose (mat_transpose m) = m := by
    rw [mat_transpose_eq (mat_transpose m), mat_transpose_eq m]
    cases m with
    | mk dims len_dims strides data sparse =>
      simp only [mat_t.mk.injEq, and_true, true_and]
      constructor
      · funext j
        by_cases h : j ≤ u16_sub len_dims 1
        · have h1 : u16_sub len_dims 1 - j ≤ u16_sub len_dims 1 := by omega
          have h2 : u16_sub len_dims 1 - (u16_sub len_dims 1 - j) = j := by omega
          rw [if_pos h, if_pos h1, h2]
        · rw [if_neg h, if_neg h]
      · funext j
        by_cases h : j ≤ u16_sub len_dims 1
        · have h1 : u16_sub len_dims 1 - j ≤ u16_sub len_dims 1 := by omega
          have h2 : u16_sub len_dims 1 - (u16_sub len_dims 1 - j) = j := by omega
          rw [if_pos h, if_pos h1, h2]
        · rw [if_neg h, if_neg h]
  exact ⟨by rw [h], by rw [h], h⟩

/-- C9: for a view `m` of rank `r` (a `uint16_t`) and an index vector `idx` of length `r`,
after `mat_transpose(m)` the reversed index vector has the same offset,
`_offset_calc(transposed m, reverse(idx), r) = _offset_calc(m, idx, r)`, and `mat_get`
returns the same value on every buffer. -/
theorem mat_transpose_offset (m : mat_t) (idx : Nat → Nat) (hr : m.len_dims < U16) :
    _offset_calc (mat_transpose m) (rev_idx idx m.len_dims) m.len_dims
      = _offset_calc m idx m.len_dims ∧
    ∀ buf : List fixed,
      mat_get buf (mat_transpose m) (rev_idx idx m.len_dims) m.len_dims
        = mat_get buf m idx m.len_dims := by
  have hoff : _offset_calc (mat_transpose m) (rev_idx idx m.len_dims) m.len_dims
      = _offset_calc m idx m.len_dims := by
    have hs : sum_lt (fun i => (mat_transpose m).strides i * rev_idx idx m.len_dims i) m.len_dims
        = sum_lt (fun i => m.strides i * idx i) m.len_dims := by
      rw [← sum_lt_reflect (fun i => m.strides i * idx i) m.len_dims]
      apply sum_lt_congr
      intro i hi
      have he : u16_sub m.len_dims 1 = m.len_dims - 1 := u16_sub_eq _ _ (by omega) hr
      have hle : i ≤ m.len_dims - 1 := by omega
      rw [mat_transpose_eq]
      simp only [he, hle, if_true, rev_idx]
    rw [offset_calc_eq_sum_mod, offset_calc_eq_sum_mod, hs]
  refine ⟨hoff, ?_⟩
  intro buf
  have hdata : (mat_transpose m).data = m.data := by rw [mat_transpose_eq]
  unfold mat_get
  rw [hoff, hdata]

/-- C9 on the buffer `[0..5]` reshaped to `[2, 3]`: after the transpose the dims are `[3, 2]`
and `mat_get({2, 1})` is 5, the element formerly read by `mat_get({1, 2})`. -/
theorem mat_transpose_offset_witness :
    (_offset_calc (mat_transpose view23) (rev_idx (arr [1, 2]) view23.len_dims) view23.len_dims
      = _offset_calc view23 (arr [1, 2]) view23.len_dims ∧
    ∀ buf : List fixed,
      mat_get buf (mat_transpose view23) (rev_idx (arr [1, 2]) view23.len_dims) view23.len_dims
        = mat_get buf view23 (arr [1, 2]) view23.len_dims) ∧
    (mat_transpose view23).dims 0 = 3 ∧ (mat_transpose view23).dims 1 = 2 ∧
    rev_idx (arr [1, 2]) 2 0 = 2 ∧ rev_idx (arr [1, 2]) 2 1 = 1 ∧
    mat_get buf6 (mat_transpose view23) (arr [2, 1]) 2 = some 5 ∧
    mat_get buf6 view23 (arr [1, 2]) 2 = some 5 :=
  ⟨mat_transpose_offset view23 (arr [1, 2]) (by decide),
    by decide, by decide, by decide, by decide, by decide, by decide⟩

/-! ## C10: `mat_get_size` -/

/-- Closed form of `mat_get_size`: the product of the dims modulo `2 ^ w`. -/
theorem mat_get_size_eq (w : Nat) (m : mat_t) :
    mat_get_size w m = prod_lt m.dims m.len_dims % 2 ^ w := by
  unfold mat_get_size
  generalize m.len_dims = n
  induction n with
  | zero => rfl
  | succ n ih =>
    rw [for_loop_succ, ih]
    simp only [size_step, prod_lt]
    exact Nat.mod_mul_mod

/-- C10 as stated fails when the product does not fit a `size_t`: for five axes of
length 65535 the product is `65535 ^ 5`, above `2 ^ 64`, and `mat_get_size` returns
its residue, whether `size_t` has 64, 32 or 16 bits. -/
theorem mat_get_size_counterexample :
    prod_lt view_huge.dims view_huge.len_dims = 65535 ^ 5 ∧
    mat_get_size 64 view_huge ≠ prod_lt view_huge.dims view_huge.len_dims ∧
    mat_get_size 32 view_huge ≠ prod_lt view_huge.dims view_huge.len_dims ∧
    mat_get_size 16 view_huge ≠ prod_lt view_huge.dims view_huge.len_dims := by
  decide

/-- C10 (amended): `mat_get_size(m)` returns the product of `dims[i]` for `i < m.len_dims`
reduced modulo `2 ^ w`, `w` being the width of `size_t`; whenever that product is below
`2 ^ w` it returns the product itself, the element count (1 for a rank-0 view). -/
theorem mat_get_size_product (w : Nat) (m : mat_t) :
    mat_get_size w m = prod_lt m.dims m.len_dims % 2 ^ w ∧
    (prod_lt m.dims m.len_dims < 2 ^ w → mat_get_size w m = prod_lt m.dims m.len_dims) ∧
    (m.len_dims = 0 → 0 < w → mat_get_size w m = 1) := by
  refine ⟨mat_get_size_eq w m, ?_, ?_⟩
  · intro h
    rw [mat_get_size_eq, Nat.mod_eq_of_lt h]
  · intro h0 hw
    have h1 : 1 < 2 ^ w := Nat.one_lt_two_pow (by omega)
    rw [mat_get_size_eq, h0]
    exact Nat.mod_eq_of_lt h1

/-- C10 (amended) on dims `[2, 3]` with a 16-bit `size_t`: the size is 6. -/
theorem mat_get_size_product_witness : mat_get_size 16 view23 = 6 :=
  (mat_get_size_product 16 view23).2.1 (by decide)

/-! ## C11, C12, C13: `mat_same` and `mat_close` -/

/-- The loop of `mat_same` over `n` cells that lie inside the buffer. -/
theorem same_loop_spec (buf : List fixed) (dst src : mat_t) (n : Nat)
    (hs : src.data + n ≤ buf.length) (hd : dst.data + n ≤ buf.length) :
    ∃ b, same_loop buf dst src n = some b ∧
      (b = true ↔ ∀ k, k < n → buf.get? (src.data + k) = buf.get? (dst.data + k)) := by
  induction n with
  | zero => exact ⟨true, rfl, by simp⟩
  | succ n ih =>
    obtain ⟨b, hb, hiff⟩ := ih (by omega) (by omega)
    have h1 : src.data + n < buf.length := by omega
    have h2 : dst.data + n < buf.length := by omega
    have e1 : buf.get? (src.data + n) = some (buf.get ⟨src.data + n, h1⟩) :=
      List.get?_eq_get h1
    have e2 : buf.get? (dst.data + n) = some (buf.get ⟨dst.data + n, h2⟩) :=
      List.get?_eq_get h2
    by_cases hne : buf.get ⟨src.data + n, h1⟩ ≠ buf.get ⟨dst.data + n, h2⟩
    · refine ⟨false, ?_, ?_⟩
      · simp only [same_loop, e1, e2]
        rw [if_pos hne]
      · constructor
        · intro h; exact absurd h (by decide)
        · intro h
          have := h n (by omega)
          rw [e1, e2] at this
          exact absurd (Option.some.inj this) hne
    · refine ⟨b, ?_, ?_⟩
      · simp only [same_loop, e1, e2]
        rw [if_neg hne]
        exact hb
      · have heq : buf.get ⟨src.data + n, h1⟩ = buf.get ⟨dst.data + n, h2⟩ := not_not.mp hne
        rw [hiff]
        constructor
        · intro h k hk
          rcases Nat.lt_or_ge k n with hlt | hge
          · exact h k hlt
          · have : k = n := by omega
            subst this
            rw [e1, e2, heq]
        · intro h k hk
          exact h k (by omega)

/-- C11: `mat_same(dst, src)` returns false when the total sizes differ; when they are
equal (and the `size` leading cells of both data references lie in the buffer) it
returns true if and only if `src.data[k] = dst.data[k]` for every `k` in `[0, size)`,
whatever the dims and strides of the two views. -/
theorem mat_same_spec (w : Nat) (buf : List fixed) (dst src : mat_t) :
    (mat_get_size w dst ≠ mat_get_size w src → mat_same w buf dst src = some false) ∧
    (mat_get_size w dst = mat_get_size w src →
      src.data + mat_get_size w src ≤ buf.length →
      dst.data + mat_get_size w src ≤ buf.length →
      ∃ b, mat_same w buf dst src = some b ∧
        (b = true ↔ ∀ k, k < mat_get_size w src →
          buf.get? (src.data + k) = buf.get? (dst.data + k))) := by
  constructor
  · intro h
    simp only [mat_same]
    rw [if_pos h]
  · intro h hs hd
    simp only [mat_same]
    rw [if_neg (not_not.mpr h)]
    exact same_loop_spec buf dst src _ hs hd

/-- C11 on two views of different shape and equal size 3 over `[7, 8, 9, 7, 8, 9]`: the
result is true; against the six-element view `view23` it is false. -/
theorem mat_same_spec_witness :
    (∃ b, mat_same 16 buf_pair pair_b pair_a = some b ∧
        (b = true ↔ ∀ k, k < mat_get_size 16 pair_a →
          buf_pair.get? (pair_a.data + k) = buf_pair.get? (pair_b.data + k))) ∧
    mat_same 16 buf_pair pair_b pair_a = some true ∧
    mat_same 16 buf_pair view23 pair_a = some false :=
  ⟨(mat_same_spec 16 buf_pair pair_b pair_a).2 (by decide) (by decide) (by decide),
    by decide,
    (mat_same_spec 16 buf_pair view23 pair_a).1 (by decide)⟩

theorem close_diff_eq_abs (a b : fixed) : close_diff a b = |a - b| := by
  unfold close_diff
  by_cases h : a > b
  · rw [if_pos h, abs_of_pos (sub_pos.mpr h)]
  · rw [if_neg h, abs_of_nonpos (sub_nonpos.mpr (le_of_not_gt h)), neg_sub]

/-- The loop of `mat_close` over `n` cells that lie inside the buffer. -/
theorem close_loop_spec (buf : List fixed) (dst src : mat_t) (close : fixed) (n : Nat)
    (hs : src.data + n ≤ buf.length) (hd : dst.data + n ≤ buf.length) :
    ∃ b, close_loop buf dst src close n = some b ∧
      (b = true ↔ ∀ k, k < n → ∃ x y, buf.get? (src.data + k) = some x ∧
        buf.get? (dst.data + k) = some y ∧ |x - y| < close) := by
  induction n with
  | zero => exact ⟨true, rfl, by simp⟩
  | succ n ih =>
    obtain ⟨b, hb, hiff⟩ := ih (by omega) (by omega)
    have h1 : src.data + n < buf.length := by omega
    have h2 : dst.data + n < buf.length := by omega
    have e1 : buf.get? (src.data + n) = some (buf.get ⟨src.data + n, h1⟩) :=
      List.get?_eq_get h1
    have e2 : buf.get? (dst.data + n) = some (buf.get ⟨dst.data + n, h2⟩) :=
      List.get?_eq_get h2
    by_cases hge : close_diff (buf.get ⟨src.data + n, h1⟩) (buf.get ⟨dst.data + n, h2⟩) ≥ close
    · refine ⟨false, ?_, ?_⟩
      · simp only [close_loop, e1, e2]
        rw [if_pos hge]
      · constructor
        · intro h; exact absurd h (by decide)
        · intro h
          obtain ⟨x, y, hx, hy, hlt⟩ := h n (by omega)
          rw [e1] at hx
          rw [e2] at hy
          rw [← Option.some.inj hx, ← Option.some.inj hy, ← close_diff_eq_abs] at hlt
          exact absurd hge (not_le.mpr hlt)
    · refine ⟨b, ?_, ?_⟩
      · simp only [close_loop, e1, e2]
        rw [if_neg hge]
        exact hb
      · rw [hiff]
        constructor
        · intro h k hk
          rcases Nat.lt_or_ge k n with hlt | hge2
          · exact h k hlt
          · have : k = n := by omega
            subst this
            refine ⟨_, _, e1, e2, ?_⟩
            rw [← close_diff_eq_abs]
            exact not_le.mp hge
        · intro h k hk
          exact h k (by omega)

/-- C12: `mat_close(dst, src, close)` returns false when the total sizes differ; when
they are equal (and the `size` leading cells of both data references lie in the
buffer) it returns true if and only if for every `k` in `[0, size)` the absolute
difference `|src.data[k] - dst.data[k]|` is strictly less than `close`. -/
theorem mat_close_spec (w : Nat) (buf : List fixed) (dst src : mat_t) (close : fixed) :
    (mat_get_size w dst ≠ mat_get_size w src → mat_close w buf dst src close = some false) ∧
    (mat_get_size w dst = mat_get_size w src →
      src.data + mat_get_size w src ≤ buf.length →
      dst.data + mat_get_size w src ≤ buf.length →
      ∃ b, mat_close w buf dst src close = some b ∧
        (b = true ↔ ∀ k, k < mat_get_size w src →
          ∃ x y, buf.get? (src.data + k) = some x ∧ buf.get? (dst.data + k) = some y ∧
            |x - y| < close)) := by
  constructor
  · intro h
    simp only [mat_close]
    rw [if_pos h]
  · intro h hs hd
    simp only [mat_close]
    rw [if_neg (not_not.mpr h)]
    exact close_loop_spec buf dst src close _ hs hd

/-- C12 on `[0, 1, 2, 3, 4, 5]`: the view at cell 0 and the view at cell 3, three elements
each, differ by 3 everywhere, so they are close for tolerance 4 and not for 3. -/
theorem mat_close_spec_witness :
    (∃ b, mat_close 16 buf6 pair_b pair_a 4 = some b ∧
        (b = true ↔ ∀ k, k < mat_get_size 16 pair_a →
          ∃ x y, buf6.get? (pair_a.data + k) = some x ∧ buf6.get? (pair_b.data + k) = some y ∧
            |x - y| < 4)) ∧
    mat_close 16 buf6 pair_b pair_a 4 = some true ∧
    mat_close 16 buf6 pair_b pair_a 3 = some false ∧
    mat_close 16 buf6 view23 pair_a 4 = some false :=
  ⟨(mat_close_spec 16 buf6 pair_b pair_a 4).2 (by decide) (by decide) (by decide),
    by decide, by decide,
    (mat_close_spec 16 buf6 view23 pair_a 4).1 (by decide)⟩

/-- With tolerance 1 the loop of `mat_close` is the loop of `mat_same`. -/
theorem close_loop_one (buf : List fixed) (dst src : mat_t) (n : Nat) :
    close_loop buf dst src 1 n = same_loop buf dst src n := by
  induction n with
  | zero => rfl
  | succ n ih =>
    simp only [close_loop, same_loop]
    cases buf.get? (src.data + n) with
    | none => rfl
    | some a =>
      cases buf.get? (dst.data + n) with
      | none => rfl
      | some b =>
        simp only
        rw [ih]
        by_cases h : a = b
        · subst h
          have : ¬ close_diff a a ≥ 1 := by
            rw [close_diff_eq_abs]; simp
          rw [if_neg this, if_neg (not_not.mpr rfl)]
        · have : close_diff a b ≥ 1 := by
            rw [close_diff_eq_abs]
            have h1 : a - b ≠ 0 := sub_ne_zero.mpr h
            exact Int.one_le_abs h1
          rw [if_pos this, if_pos h]

/-- C13 as stated fails: over `[0, 1, 2, 3, 4, 5]` the view `view23` compared with itself
has equal sizes, `mat_same` returns true and `mat_close` with tolerance 0 returns
false. -/
theorem mat_close_zero_counterexample :
    mat_get_size 16 view23 = mat_get_size 16 view23 ∧
    mat_same 16 buf6 view23 view23 = some true ∧
    mat_close 16 buf6 view23 view23 0 = some false ∧
    mat_close 16 buf6 view23 view23 0 ≠ mat_same 16 buf6 view23 view23 := by
  decide

/-- C13 (amended): for views `a`, `b` with equal total element counts, `mat_close(a, b, 1)`
(tolerance one unit of the raw element value) returns the same boolean as
`mat_same(a, b)`; `mat_close(a, b, 0)` returns false whenever the shared count is not
zero and the compared cells lie in the buffer, because no difference is below 0. -/
theorem mat_close_one_eq_same (w : Nat) (buf : List fixed) (a b : mat_t)
    (hsz : mat_get_size w a = mat_get_size w b) :
    mat_close w buf a b 1 = mat_same w buf a b ∧
    (0 < mat_get_size w b → b.data + mat_get_size w b ≤ buf.length →
      a.data + mat_get_size w b ≤ buf.length → mat_close w buf a b 0 = some false) := by
  constructor
  · simp only [mat_close, mat_same]
    rw [close_loop_one]
  · intro hpos hs hd
    simp only [mat_close]
    rw [if_neg (not_not.mpr hsz)]
    obtain ⟨n, hn⟩ : ∃ n, mat_get_size w b = n + 1 := ⟨mat_get_size w b - 1, by omega⟩
    rw [hn] at hs hd ⊢
    have h1 : b.data + n < buf.length := by omega
    have h2 : a.data + n < buf.length := by omega
    simp only [close_loop, List.get?_eq_get h1, List.get?_eq_get h2]
    have : close_diff (buf.get ⟨b.data + n, h1⟩) (buf.get ⟨a.data + n, h2⟩) ≥ 0 := by
      rw [close_diff_eq_abs]
      exact abs_nonneg _
    rw [if_pos this]

/-- C13 (amended) on the two three-element views over `[7, 8, 9, 7, 8, 9]`: tolerance 1
agrees with `mat_same` (both true), tolerance 0 gives false. -/
theorem mat_close_one_eq_same_witness :
    (mat_close 16 buf_pair pair_b pair_a 1 = mat_same 16 buf_pair pair_b pair_a ∧
    (0 < mat_get_size 16 pair_a → pair_a.data + mat_get_size 16 pair_a ≤ buf_pair.length →
      pair_b.data + mat_get_size 16 pair_a ≤ buf_pair.length →
      mat_close 16 buf_pair pair_b pair_a 0 = some false)) ∧
    mat_same 16 buf_pair pair_b pair_a = some true ∧
    mat_close 16 buf_pair pair_b pair_a 0 = some false :=
  ⟨mat_close_one_eq_same 16 buf_pair pair_b pair_a (by decide), by decide, by decide⟩

/-! ## C14, C15: `mat_sameshape` and `mat_copy` -/

/-- C14: after `mat_sameshape(dst, src)` the rank of `dst` is that of `src`, its dims
and strides agree with those of `src` on every `i < src.len_dims`, its sparse rank is
that of `src` and its sparse dims agree on the first `src.sparse.len_dims` entries;
`dst.data`, `dst.sparse.offsets`, `dst.sparse.sizes`, the buffer and `src` are
unchanged. -/
theorem mat_sameshape_spec (buf : List fixed) (dst src : mat_t) :
    (mat_sameshape buf dst src).2.1.len_dims = src.len_dims ∧
    (∀ i, i < src.len_dims →
      (mat_sameshape buf dst src).2.1.dims i = src.dims i ∧
      (mat_sameshape buf dst src).2.1.strides i = src.strides i) ∧
    (mat_sameshape buf dst src).2.1.sparse.len_dims = src.sparse.len_dims ∧
    (∀ i, i < src.sparse.len_dims →
      (mat_sameshape buf dst src).2.1.sparse.dims i = src.sparse.dims i) ∧
    (mat_sameshape buf dst src).2.1.data = dst.data ∧
    (mat_sameshape buf dst src).2.1.sparse.offsets = dst.sparse.offsets ∧
    (mat_sameshape buf dst src).2.1.sparse.sizes = dst.sparse.sizes ∧
    (mat_sameshape buf dst src).1 = buf ∧
    (mat_sameshape buf dst src).2.2 = src := by
  refine ⟨rfl, ?_, rfl, ?_, rfl, rfl, rfl, rfl, rfl⟩
  · intro i hi
    simp [mat_sameshape, memcpy16, hi]
  · intro i hi
    simp [mat_sameshape, memcpy16, hi]

/-- The offset of the first `L` indices depends on the first `L` strides only. -/
theorem offset_calc_congr (m1 m2 : mat_t) (idx : Nat → Nat) (L : Nat)
    (h : ∀ i, i < L → m1.strides i = m2.strides i) :
    _offset_calc m1 idx L = _offset_calc m2 idx L := by
  rw [offset_calc_eq_sum_mod, offset_calc_eq_sum_mod]
  rw [sum_lt_congr (fun i => m1.strides i * idx i) (fun i => m2.strides i * idx i) L
    (fun i hi => by simp only [h i hi])]

/-- Fields of `*dst` after `mat_copy`. -/
theorem mat_copy_fields (buf : List fixed) (dst src : mat_t) :
    (mat_copy buf dst src).2.1.data = src.data ∧
    (mat_copy buf dst src).2.1.len_dims = src.len_dims ∧
    (∀ i, i < src.len_dims →
      (mat_copy buf dst src).2.1.dims i = src.dims i ∧
      (mat_copy buf dst src).2.1.strides i = src.strides i) := by
  refine ⟨rfl, rfl, ?_⟩
  intro i hi
  simp [mat_copy, memcpy16, hi]

/-- C15: after `mat_copy(dst, src)` the view `dst` aliases the buffer of `src` with the
same shape: same data reference, same rank, dims and strides equal on every
`i < src.len_dims`, sparse offsets and sizes references those of `src`; so for every
index vector of length `L ≤ src.len_dims`, `mat_get(dst, idx, L) = mat_get(src, idx, L)`;
the buffer and `src` are unchanged. -/
theorem mat_copy_alias (buf : List fixed) (dst src : mat_t) :
    (mat_copy buf dst src).2.1.data = src.data ∧
    (mat_copy buf dst src).2.1.len_dims = src.len_dims ∧
    (∀ i, i < src.len_dims →
      (mat_copy buf dst src).2.1.dims i = src.dims i ∧
      (mat_copy buf dst src).2.1.strides i = src.strides i) ∧
    (mat_copy buf dst src).2.1.sparse.offsets = src.sparse.offsets ∧
    (mat_copy buf dst src).2.1.sparse.sizes = src.sparse.sizes ∧
    (∀ (idx : Nat → Nat) (L : Nat), L ≤ src.len_dims →
      mat_get (mat_copy buf dst src).1 (mat_copy buf dst src).2.1 idx L
        = mat_get buf src idx L) ∧
    (mat_copy buf dst src).1 = buf ∧
    (mat_copy buf dst src).2.2 = src := by
  have hf := mat_copy_fields buf dst src
  refine ⟨hf.1, hf.2.1, hf.2.2, rfl, rfl, ?_, rfl, rfl⟩
  intro idx L hL
  have hbuf : (mat_copy buf dst src).1 = buf := rfl
  have hoff := offset_calc_congr (mat_copy buf dst src).2.1 src idx L
    (fun i hi => (hf.2.2 i (by omega)).2)
  unfold mat_get
  rw [hbuf, hf.1, hoff]

/-! ## C16: `mat_debug_dump` on a rank-3 view -/

theorem plane_value_at (buf : List fixed) (m : mat_t) (which c i j : Nat) (hj : j < c) :
    plane_value buf m which c (i * c + j) = mat_get buf m (arr [which, i, j]) 3 := by
  unfold plane_value
  have h1 : (i * c + j) / c = i := by
    rw [Nat.mul_comm, Nat.mul_add_div (by omega), Nat.div_eq_of_lt hj, Nat.add_zero]
  have h2 : (i * c + j) % c = j := by
    rw [Nat.mul_comm, Nat.mul_add_mod, Nat.mod_eq_of_lt hj]
  rw [h1, h2]

/-- One store of `mat_debug_dump`: slot `q` receives its plane value, the slots before it
keep theirs and the slots after it keep the caller's contents. -/
theorem debug_dump_step_spec (buf : List fixed) (m : mat_t) (which c i j : Nat)
    (dest0 d : List fixed) (hj : j < c)
    (hread : (mat_get buf m (arr [which, i, j]) 3).isSome)
    (hcap : i * c + j < dest0.length)
    (hlen : d.length = dest0.length)
    (hlow : ∀ k, k < i * c + j → d.get? k = plane_value buf m which c k)
    (hhigh : ∀ k, i * c + j ≤ k → d.get? k = dest0.get? k) :
    ∃ d2, debug_dump_step buf m which i j (some (d, i * c + j)) = some (d2, i * c + j + 1) ∧
      d2.length = dest0.length ∧
      (∀ k, k < i * c + j + 1 → d2.get? k = plane_value buf m which c k) ∧
      (∀ k, i * c + j + 1 ≤ k → d2.get? k = dest0.get? k) := by
  obtain ⟨v, hv⟩ := Option.isSome_iff_exists.mp hread
  have hget : MAT_GET buf m [which, i, j] = some v := hv
  have hq : i * c + j < d.length := by omega
  refine ⟨d.set (i * c + j) v, ?_, ?_, ?_, ?_⟩
  · simp only [debug_dump_step, hget]
    rw [if_pos hq]
  · rw [List.length_set]; exact hlen
  · intro k hk
    rcases Nat.lt_or_ge k (i * c + j) with hlt | hge
    · rw [List.get?_eq_getElem?, List.getElem?_set_ne (by omega), ← List.get?_eq_getElem?]
      exact hlow k hlt
    · have hkq : k = i * c + j := by omega
      rw [hkq, List.get?_eq_getElem?, List.getElem?_set_self hq, plane_value_at _ _ _ _ _ _ hj, hv]
  · intro k hk
    rw [List.get?_eq_getElem?, List.getElem?_set_ne (by omega), ← List.get?_eq_getElem?]
    exact hhigh k (by omega)

/-- The inner loop of `mat_debug_dump` on row `i`, after `n` of its `c` iterations. -/
theorem debug_dump_row_spec (buf : List fixed) (m : mat_t) (which c i : Nat)
    (dest0 : List fixed)
    (hread : ∀ j, j < c → (mat_get buf m (arr [which, i, j]) 3).isSome)
    (hcap : i * c + c ≤ dest0.length) (n : Nat) (hn : n ≤ c) (d : List fixed)
    (hlen : d.length = dest0.length)
    (hlow : ∀ k, k < i * c → d.get? k = plane_value buf m which c k)
    (hhigh : ∀ k, i * c ≤ k → d.get? k = dest0.get? k) :
    ∃ d2, for_loop (debug_dump_step buf m which i) n (some (d, i * c)) = some (d2, i * c + n) ∧
      d2.length = dest0.length ∧
      (∀ k, k < i * c + n → d2.get? k = plane_value buf m which c k) ∧
      (∀ k, i * c + n ≤ k → d2.get? k = dest0.get? k) := by
  induction n with
  | zero => exact ⟨d, rfl, hlen, hlow, hhigh⟩
  | succ n ih =>
    obtain ⟨d1, h1, hl1, hlow1, hhigh1⟩ := ih (by omega)
    rw [for_loop_succ, h1]
    exact debug_dump_step_spec buf m which c i n dest0 d1 (by omega) (hread n (by omega))
      (by omega) hl1 hlow1 hhigh1

/-- The outer loop of `mat_debug_dump` after `n` of its `r` rows. -/
theorem debug_dump_rows_spec (buf : List fixed) (m : mat_t) (which r c : Nat)
    (dest0 : List fixed)
    (hread : ∀ i j, i < r → j < c → (mat_get buf m (arr [which, i, j]) 3).isSome)
    (hcap : r * c ≤ dest0.length) (n : Nat) (hn : n ≤ r) :
    ∃ d2, for_loop (fun i s => for_loop (debug_dump_step buf m which i) c s) n
        (some (dest0, 0)) = some (d2, n * c) ∧
      d2.length = dest0.length ∧
      (∀ k, k < n * c → d2.get? k = plane_value buf m which c k) ∧
      (∀ k, n * c ≤ k → d2.get? k = dest0.get? k) := by
  induction n with
  | zero =>
    refine ⟨dest0, ?_, rfl, ?_, ?_⟩
    · simp [for_loop]
    · intro k hk; simp at hk
    · intro k _; rfl
  | succ n ih =>
    obtain ⟨d1, h1, hl1, hlow1, hhigh1⟩ := ih (by omega)
    have hc : n * c + c ≤ dest0.length := by
      have : (n + 1) * c ≤ r * c := Nat.mul_le_mul_right c hn
      rw [Nat.add_mul, Nat.one_mul] at this
      omega
    obtain ⟨d2, h2, hl2, hlow2, hhigh2⟩ := debug_dump_row_spec buf m which c n dest0
      (fun j hj => hread n j (by omega) hj) hc c (le_refl _) d1 hl1 hlow1 hhigh1
    refine ⟨d2, ?_, hl2, ?_, ?_⟩
    · rw [for_loop_succ, h1, h2, Nat.add_mul, Nat.one_mul]
    · intro k hk
      rw [Nat.add_mul, Nat.one_mul] at hk
      exact hlow2 k hk
    · intro k hk
      rw [Nat.add_mul, Nat.one_mul] at hk
      exact hhigh2 k hk

/-- C16: for a rank-3 view `m` with dims `[p, r, c]` and `which < p`, whose reads at
`{which, i, j}` lie in the buffer, and a destination of at least `r * c` cells,
`mat_debug_dump(m, which, dst)` returns with `dst[i*c + j] = mat_get(m, {which, i, j})`
for every `i < r` and `j < c`; the destination cells from `r * c` on keep their
contents, and `m` and its buffer are unchanged. -/
theorem mat_debug_dump_plane (buf : List fixed) (m : mat_t) (which : Nat) (dest : List fixed)
    (hrank : m.len_dims = 3) (_hw : which < m.dims 0)
    (hread : ∀ i, i < m.dims 1 → ∀ j, j < m.dims 2 →
      (mat_get buf m (arr [which, i, j]) 3).isSome)
    (hcap : m.dims 1 * m.dims 2 ≤ dest.length) :
    ∃ dest2, mat_debug_dump buf m which dest = some (m, buf, dest2) ∧
      dest2.length = dest.length ∧
      (∀ i, i < m.dims 1 → ∀ j, j < m.dims 2 →
        dest2.get? (i * m.dims 2 + j) = mat_get buf m (arr [which, i, j]) 3) ∧
      (∀ k, m.dims 1 * m.dims 2 ≤ k → dest2.get? k = dest.get? k) := by
  obtain ⟨d2, h2, hl2, hlow2, hhigh2⟩ := debug_dump_rows_spec buf m which (m.dims 1)
    (m.dims 2) dest (fun i j hi hj => hread i hi j hj) hcap (m.dims 1) (le_refl _)
  have hr : MAT_GET_DIM m (u16_sub m.len_dims 2) = m.dims 1 := by
    rw [hrank]; rfl
  have hc : MAT_GET_DIM m (u16_sub m.len_dims 1) = m.dims 2 := by
    rw [hrank]; rfl
  refine ⟨d2, ?_, hl2, ?_, hhigh2⟩
  · simp only [mat_debug_dump, hr, hc, h2]
  · intro i hi j hj
    have hk : i * m.dims 2 + j < m.dims 1 * m.dims 2 := by
      have h1 : (i + 1) * m.dims 2 ≤ m.dims 1 * m.dims 2 := Nat.mul_le_mul_right _ hi
      rw [Nat.add_mul, Nat.one_mul] at h1
      omega
    rw [hlow2 _ hk, plane_value_at _ _ _ _ _ _ hj]

/-- C16 on dims `[2, 2, 3]` over the buffer `0..11` with `which = 1`: the destination
receives `[6, 7, 8, 9, 10, 11]`. -/
theorem mat_debug_dump_plane_witness :
    (∃ dest2, mat_debug_dump buf12 view223 1 dest6 = some (view223, buf12, dest2) ∧
      dest2.length = dest6.length ∧
      (∀ i, i < view223.dims 1 → ∀ j, j < view223.dims 2 →
        dest2.get? (i * view223.dims 2 + j) = mat_get buf12 view223 (arr [1, i, j]) 3) ∧
      (∀ k, view223.dims 1 * view223.dims 2 ≤ k → dest2.get? k = dest6.get? k)) ∧
    dump_dest (mat_debug_dump buf12 view223 1 dest6) = some [6, 7, 8, 9, 10, 11] :=
  ⟨mat_debug_dump_plane buf12 view223 1 dest6 (by decide) (by decide) (by decide) (by decide),
    by decide⟩

/-! ## C17: the rank bound -/

/-- C17 as stated fails: `mat_reshape` stores whatever `len` it is given, so eleven dims
on a view of rank 0 leave rank 11; and `mat_constrain` with `len = 3` on the rank-2
view `view23` stores `2 - 3` in a `uint16_t`, rank 65535. -/
theorem rank_bound_counterexample :
    mat_zero.len_dims ≤ MAX_RANK ∧
    (mat_reshape mat_zero (arr [1, 1, 1, 1, 1, 1, 1, 1, 1, 1, 1]) 11).len_dims = 11 ∧
    ¬ (mat_reshape mat_zero (arr [1, 1, 1, 1, 1, 1, 1, 1, 1, 1, 1]) 11).len_dims ≤ MAX_RANK ∧
    view23.len_dims ≤ MAX_RANK ∧
    (mat_constrain mat_zero view23 (arr [0, 0, 0]) 3).1.len_dims = 65535 ∧
    ¬ (mat_constrain mat_zero view23 (arr [0, 0, 0]) 3).1.len_dims ≤ MAX_RANK := by
  decide

/-- C17 (amended): applied to views whose rank is at most `MAX_RANK`, every
descriptor-writing operation leaves every resulting view with rank at most
`MAX_RANK`, provided `mat_reshape` is given `len ≤ MAX_RANK` and `mat_constrain` is
given `len` at most the rank of its view. -/
theorem rank_bound (buf : List fixed) (m dst src c_m : mat_t) (D idxs : Nat → Nat)
    (len n : Nat) (hm : m.len_dims ≤ MAX_RANK) (hsrc : src.len_dims ≤ MAX_RANK)
    (hlen : len ≤ MAX_RANK) (hn : n ≤ m.len_dims) :
    (mat_reshape m D len).len_dims ≤ MAX_RANK ∧
    (mat_constrain c_m m idxs n).1.len_dims ≤ MAX_RANK ∧
    (mat_constrain c_m m idxs n).2.len_dims ≤ MAX_RANK ∧
    (mat_transpose m).len_dims ≤ MAX_RANK ∧
    (mat_sameshape buf dst src).2.1.len_dims ≤ MAX_RANK ∧
    (mat_sameshape buf dst src).2.2.len_dims ≤ MAX_RANK ∧
    (mat_copy buf dst src).2.1.len_dims ≤ MAX_RANK ∧
    (mat_copy buf dst src).2.2.len_dims ≤ MAX_RANK := by
  have hU : m.len_dims < U16 := by
    unfold MAX_RANK at hm
    unfold U16
    omega
  refine ⟨?_, ?_, hm, ?_, hsrc, hsrc, hsrc, hsrc⟩
  · rw [mat_reshape_eq]
    exact hlen
  · rw [(mat_constrain_fields c_m m idxs n).1, u16_sub_eq _ _ hn hU]
    exact le_trans (Nat.sub_le _ _) hm
  · rw [mat_transpose_eq]
    exact hm

/-- C17 (amended) on the rank-3 view `view223`: reshaped to two dims, constrained by
one index, transposed, and as the source of the two shape copies. -/
theorem rank_bound_witness :
    (mat_reshape view223 (arr [4, 3]) 2).len_dims ≤ MAX_RANK ∧
    (mat_constrain mat_zero view223 (arr [1]) 1).1.len_dims ≤ MAX_RANK ∧
    (mat_constrain mat_zero view223 (arr [1]) 1).2.len_dims ≤ MAX_RANK ∧
    (mat_transpose view223).len_dims ≤ MAX_RANK ∧
    (mat_sameshape buf12 mat_zero view223).2.1.len_dims ≤ MAX_RANK ∧
    (mat_sameshape buf12 mat_zero view223).2.2.len_dims ≤ MAX_RANK ∧
    (mat_copy buf12 mat_zero view223).2.1.len_dims ≤ MAX_RANK ∧
    (mat_copy buf12 mat_zero view223).2.2.len_dims ≤ MAX_RANK :=
  rank_bound buf12 view223 mat_zero view223 mat_zero (arr [4, 3]) (arr [1]) 2 1
    (by decide) (by decide) (by decide) (by decide)

/-! ## C18: `mat_debug_dump` against `mat_dump` -/

/-- One print of `mat_dump` on a view whose rank is not 2. -/
theorem dump_step_spec (buf : List fixed) (m : mat_t) (which c i j : Nat) (out : List fixed)
    (hrank : m.len_dims ≠ 2) (hj : j < c)
    (hread : (mat_get buf m (arr [which, i, j]) 3).isSome)
    (hlen : out.length = i * c + j)
    (hlow : ∀ k, k < i * c + j → out.get? k = plane_value buf m which c k) :
    ∃ out2, dump_step buf m which i j (some out) = some out2 ∧
      out2.length = i * c + j + 1 ∧
      (∀ k, k < i * c + j + 1 → out2.get? k = plane_value buf m which c k) := by
  obtain ⟨v, hv⟩ := Option.isSome_iff_exists.mp hread
  have hget : MAT_GET buf m [which, i, j] = some v := hv
  refine ⟨out ++ [v], ?_, ?_, ?_⟩
  · simp only [dump_step, if_neg hrank, hget]
  · rw [List.length_append, hlen]; rfl
  · intro k hk
    rcases Nat.lt_or_ge k (i * c + j) with hlt | hge
    · rw [List.get?_eq_getElem?, List.getElem?_append_left (by omega),
        ← List.get?_eq_getElem?]
      exact hlow k hlt
    · have hkq : k = out.length := by omega
      rw [hkq, List.get?_eq_getElem?, List.getElem?_concat_length, hlen,
        plane_value_at _ _ _ _ _ _ hj, hv]

/-- The inner loop of `mat_dump` on row `i`, after `n` of its `c` iterations. -/
theorem dump_row_spec (buf : List fixed) (m : mat_t) (which c i : Nat)
    (hrank : m.len_dims ≠ 2)
    (hread : ∀ j, j < c → (mat_get buf m (arr [which, i, j]) 3).isSome)
    (n : Nat) (hn : n ≤ c) (out : List fixed)
    (hlen : out.length = i * c)
    (hlow : ∀ k, k < i * c → out.get? k = plane_value buf m which c k) :
    ∃ out2, for_loop (dump_step buf m which i) n (some out) = some out2 ∧
      out2.length = i * c + n ∧
      (∀ k, k < i * c + n → out2.get? k = plane_value buf m which c k) := by
  induction n with
  | zero => exact ⟨out, rfl, hlen, hlow⟩
  | succ n ih =>
    obtain ⟨o1, h1, hl1, hlow1⟩ := ih (by omega)
    rw [for_loop_succ, h1]
    exact dump_step_spec buf m which c i n o1 hrank (by omega) (hread n (by omega)) hl1 hlow1

/-- The outer loop of `mat_dump` after `n` of its `r` rows. -/
theorem dump_rows_spec (buf : List fixed) (m : mat_t) (which r c : Nat)
    (hrank : m.len_dims ≠ 2)
    (hread : ∀ i j, i < r → j < c → (mat_get buf m (arr [which, i, j]) 3).isSome)
    (n : Nat) (hn : n ≤ r) :
    ∃ out2, for_loop (fun i s => for_loop (dump_step buf m which i) c s) n (some [])
        = some out2 ∧
      out2.length = n * c ∧
      (∀ k, k < n * c → out2.get? k = plane_value buf m which c k) := by
  induction n with
  | zero =>
    refine ⟨[], rfl, by simp, ?_⟩
    intro k hk; simp at hk
  | succ n ih =>
    obtain ⟨o1, h1, hl1, hlow1⟩ := ih (by omega)
    obtain ⟨o2, h2, hl2, hlow2⟩ := dump_row_spec buf m which c n hrank
      (fun j hj => hread n j (by omega) hj) c (le_refl _) o1 hl1 hlow1
    refine ⟨o2, ?_, ?_, ?_⟩
    · rw [for_loop_succ, h1, h2]
    · rw [hl2, Nat.add_mul, Nat.one_mul]
    · intro k hk
      rw [Nat.add_mul, Nat.one_mul] at hk
      exact hlow2 k hk

set_option maxRecDepth 20000 in
/-- C18 as stated fails: on the rank-2 view `view23` (dims `[2, 3]`, strides `[3, 1]`, and
`strides[2] = 257` left by the `memset` of `mat_reshape`) over the buffer `0..519`,
`mat_dump` prints the grid `0 1 2 3 4 5`, while `mat_debug_dump` with `which = 0` reads
with the three indices `{0, i, j}` and fills the destination with
`0, 257, 514, 1, 258, 515`; over the six-element buffer those reads fall outside. -/
theorem debug_dump_rank2_counterexample :
    view23.len_dims = 2 ∧ view23.dims 0 = 2 ∧ view23.dims 1 = 3 ∧
    mat_dump buf_iota view23 0 = some [0, 1, 2, 3, 4, 5] ∧
    mat_get buf_iota view23 (arr [0, 1]) 2 = some 1 ∧
    dump_dest (mat_debug_dump buf_iota view23 0 dest6) = some [0, 257, 514, 1, 258, 515] ∧
    dump_dest (mat_debug_dump buf6 view23 0 dest6) = none := by
  decide

/-- C18 (amended): `mat_debug_dump` performs the same plane selection as `mat_dump` on
rank-3 views: for dims `[p, r, c]` and `which < p` (reads inside the buffer, a
destination of at least `r * c` cells), after `mat_debug_dump(m, which, dst)`
`dst[i*c + j] = mat_get(m, {which, i, j})` for every `i < r` and `j < c`, which is the
value `mat_dump` prints at row `i`, column `j`. -/
theorem debug_dump_matches_dump (buf : List fixed) (m : mat_t) (which : Nat)
    (dest : List fixed) (hrank : m.len_dims = 3) (_hw : which < m.dims 0)
    (hread : ∀ i, i < m.dims 1 → ∀ j, j < m.dims 2 →
      (mat_get buf m (arr [which, i, j]) 3).isSome)
    (hcap : m.dims 1 * m.dims 2 ≤ dest.length) :
    ∃ dest2 out, mat_debug_dump buf m which dest = some (m, buf, dest2) ∧
      mat_dump buf m which = some out ∧
      out.length = m.dims 1 * m.dims 2 ∧
      (∀ i, i < m.dims 1 → ∀ j, j < m.dims 2 →
        dest2.get? (i * m.dims 2 + j) = mat_get buf m (arr [which, i, j]) 3 ∧
        out.get? (i * m.dims 2 + j) = dest2.get? (i * m.dims 2 + j)) := by
  obtain ⟨d2, h2, _, hlow2, _⟩ := debug_dump_rows_spec buf m which (m.dims 1)
    (m.dims 2) dest (fun i j hi hj => hread i hi j hj) hcap (m.dims 1) (le_refl _)
  have hne : m.len_dims ≠ 2 := by rw [hrank]; decide
  obtain ⟨o2, g2, gl2, glow2⟩ := dump_rows_spec buf m which (m.dims 1) (m.dims 2) hne
    (fun i j hi hj => hread i hi j hj) (m.dims 1) (le_refl _)
  have hr : MAT_GET_DIM m (u16_sub m.len_dims 2) = m.dims 1 := by
    rw [hrank]; rfl
  have hc : MAT_GET_DIM m (u16_sub m.len_dims 1) = m.dims 2 := by
    rw [hrank]; rfl
  refine ⟨d2, o2, ?_, ?_, gl2, ?_⟩
  · simp only [mat_debug_dump, hr, hc, h2]
  · simp only [mat_dump, hr, hc, g2]
  · intro i hi j hj
    have hk : i * m.dims 2 + j < m.dims 1 * m.dims 2 := by
      have h1 : (i + 1) * m.dims 2 ≤ m.dims 1 * m.dims 2 := Nat.mul_le_mul_right _ hi
      rw [Nat.add_mul, Nat.one_mul] at h1
      omega
    rw [hlow2 _ hk, glow2 _ hk, plane_value_at _ _ _ _ _ _ hj]
    exact ⟨rfl, rfl⟩

/-- C18 (amended) on dims `[2, 2, 3]` over the buffer `0..11` with `which = 1`: both the
destination and the printed values are `6, 7, 8, 9, 10, 11`. -/
theorem debug_dump_matches_dump_witness :
    (∃ dest2 out, mat_debug_dump buf12 view223 1 dest6 = some (view223, buf12, dest2) ∧
      mat_dump buf12 view223 1 = some out ∧
      out.length = view223.dims 1 * view223.dims 2 ∧
      (∀ i, i < view223.dims 1 → ∀ j, j < view223.dims 2 →
        dest2.get? (i * view223.dims 2 + j) = mat_get buf12 view223 (arr [1, i, j]) 3 ∧
        out.get? (i * view223.dims 2 + j) = dest2.get? (i * view223.dims 2 + j))) ∧
    mat_dump buf12 view223 1 = some [6, 7, 8, 9, 10, 11] ∧
    dump_dest (mat_debug_dump buf12 view223 1 dest6) = some [6, 7, 8, 9, 10, 11] :=
  ⟨debug_dump_matches_dump buf12 view223 1 dest6 (by decide) (by decide) (by decide)
      (by decide),
    by decide, by decide⟩

/-! ## C19: offsets on a reshaped view stay in range -/

theorem sum_lt_mono (f : Nat → Nat) (n : Nat) : ∀ L, L ≤ n → sum_lt f L ≤ sum_lt f n := by
  induction n with
  | zero =>
    intro L hL
    have : L = 0 := by omega
    subst this; exact le_refl _
  | succ n ih =>
    intro L hL
    rcases Nat.lt_or_ge L (n + 1) with h | h
    · have := ih L (by omega)
      simp only [sum_lt]
      omega
    · have : L = n + 1 := by omega
      subst this; exact le_refl _

/-- On a view reshaped to dims `D` with product below `2 ^ 16`, the sum of
`strides[i] * idx[i]` over an in-range index vector, taken without any reduction, is the
row-major linear index. -/
theorem reshape_offset_sum (m : mat_t) (D idx : Nat → Nat) (len : Nat)
    (hP : prod_lt D len < U16) (hidx : ∀ i, i < len → idx i < D i) :
    sum_lt (fun i => (mat_reshape m D len).strides i * idx i) len = row_major D idx len := by
  have hD : ∀ i, i < len → 1 ≤ D i := fun i hi => by have := hidx i hi; omega
  have hsum : sum_lt (fun i => (mat_reshape m D len).strides i * idx i) len
      = sum_lt (fun k => prod_lt (fun j => D (len - 1 - j)) k * idx (len - 1 - k)) len := by
    rw [← sum_lt_reflect (fun k => prod_lt (fun j => D (len - 1 - j)) k * idx (len - 1 - k)) len]
    apply sum_lt_congr
    intro i hi
    have h1 : len - 1 - (len - 1 - i) = i := by omega
    rw [mat_reshape_eq]
    simp only [hi, if_true, h1]
    rw [running_stride_eq D len hD hP _ (by omega)]
  have hrm := row_major_eq_digits D idx len len (le_refl _)
  simp only [Nat.sub_self, prod_lt, sum_lt, Nat.mul_one, Nat.add_zero] at hrm
  rw [hsum, ← hrm]

/-- C19: on a view reshaped by `mat_reshape` to dims `D` of length `len ≥ 1` with product
`P < 2 ^ 16`, for every index vector with `idx[i] < D[i]` for all `i < len`, the offset
`_offset_calc(m, idx, len)` is below `P` and the accumulator never wraps (after every
`L ≤ len` iterations it holds the plain sum of the products, which is below `2 ^ 16`);
hence on a buffer holding at least `P` elements from `m.data` on, the accesses of
`mat_get`, `mat_set` and `mat_ptr` are in range. -/
theorem reshape_offset_in_range (buf : List fixed) (m : mat_t) (D idx : Nat → Nat) (len : Nat)
    (_h1 : 1 ≤ len) (hP : prod_lt D len < U16) (hidx : ∀ i, i < len → idx i < D i) :
    _offset_calc (mat_reshape m D len) idx len < prod_lt D len ∧
    (∀ L, L ≤ len →
      sum_lt (fun i => (mat_reshape m D len).strides i * idx i) L < U16 ∧
      _offset_calc (mat_reshape m D len) idx L
        = sum_lt (fun i => (mat_reshape m D len).strides i * idx i) L) ∧
    (m.data + prod_lt D len ≤ buf.length →
      mat_ptr (mat_reshape m D len) idx len < buf.length ∧
      (∃ x, mat_get buf (mat_reshape m D len) idx len = some x) ∧
      ∀ v, ∃ buf2, mat_set buf (mat_reshape m D len) v idx len = some buf2) := by
  have h := reshape_offset m D idx len hP hidx
  have hs := reshape_offset_sum m D idx len hP hidx
  refine ⟨by rw [h.1]; exact h.2, ?_, ?_⟩
  · intro L hL
    have hle := sum_lt_mono (fun i => (mat_reshape m D len).strides i * idx i) len L hL
    have hlt : sum_lt (fun i => (mat_reshape m D len).strides i * idx i) L < U16 := by
      rw [hs] at hle
      exact lt_of_le_of_lt hle (lt_trans h.2 hP)
    exact ⟨hlt, by rw [offset_calc_eq_sum_mod, Nat.mod_eq_of_lt hlt]⟩
  · intro hfit
    have hin := reshape_offset_in_buffer m D idx len buf.length hidx hfit
    refine ⟨hin, ?_, ?_⟩
    · exact ⟨buf.get ⟨_, hin⟩, List.get?_eq_get hin⟩
    · intro v
      refine ⟨buf.set ((mat_reshape m D len).data + _offset_calc (mat_reshape m D len) idx len) v,
        ?_⟩
      unfold mat_set
      rw [if_pos hin]

/-- C19 on the buffer `[0, 1, 2, 3, 4, 5]` reshaped to `[2, 3]` at the index vector `{1, 2}`:
the offset is 5, below the product 6. -/
theorem reshape_offset_in_range_witness :
    (_offset_calc (mat_reshape mat_zero (arr [2, 3]) 2) (arr [1, 2]) 2
        < prod_lt (arr [2, 3]) 2 ∧
    (∀ L, L ≤ 2 →
      sum_lt (fun i => (mat_reshape mat_zero (arr [2, 3]) 2).strides i * arr [1, 2] i) L < U16 ∧
      _offset_calc (mat_reshape mat_zero (arr [2, 3]) 2) (arr [1, 2]) L
        = sum_lt (fun i => (mat_reshape mat_zero (arr [2, 3]) 2).strides i * arr [1, 2] i) L) ∧
    (mat_zero.data + prod_lt (arr [2, 3]) 2 ≤ buf6.length →
      mat_ptr (mat_reshape mat_zero (arr [2, 3]) 2) (arr [1, 2]) 2 < buf6.length ∧
      (∃ x, mat_get buf6 (mat_reshape mat_zero (arr [2, 3]) 2) (arr [1, 2]) 2 = some x) ∧
      ∀ v, ∃ buf2, mat_set buf6 (mat_reshape mat_zero (arr [2, 3]) 2) v (arr [1, 2]) 2
        = some buf2)) ∧
    _offset_calc (mat_reshape mat_zero (arr [2, 3]) 2) (arr [1, 2]) 2 = 5 ∧
    mat_zero.data + prod_lt (arr [2, 3]) 2 ≤ buf6.length :=
  ⟨reshape_offset_in_range buf6 mat_zero (arr [2, 3]) (arr [1, 2]) 2 (by decide) (by decide)
      (by decide),
    by decide, by decide⟩

/-! ## C20: `mat_set` touches one slot -/

/-- Two in-range index vectors with the same row-major linear index are equal. -/
theorem row_major_inj (D a b : Nat → Nat) (n : Nat)
    (ha : ∀ i, i < n → a i < D i) (hb : ∀ i, i < n → b i < D i)
    (h : row_major D a n = row_major D b n) : ∀ i, i < n → a i = b i := by
  induction n with
  | zero => intro i hi; omega
  | succ n ih =>
    simp only [row_major] at h
    have han := ha n (by omega)
    have hbn := hb n (by omega)
    have hr : row_major D a n = row_major D b n := by
      rcases lt_trichotomy (row_major D a n) (row_major D b n) with hlt | heq | hgt
      · have h1 : (row_major D a n + 1) * D n ≤ row_major D b n * D n :=
          Nat.mul_le_mul_right _ hlt
        rw [Nat.add_mul, Nat.one_mul] at h1
        omega
      · exact heq
      · have h1 : (row_major D b n + 1) * D n ≤ row_major D a n * D n :=
          Nat.mul_le_mul_right _ hgt
        rw [Nat.add_mul, Nat.one_mul] at h1
        omega
    have hn : a n = b n := by
      rw [hr] at h
      omega
    intro i hi
    rcases Nat.lt_or_ge i n with hlt | hge
    · exact ih (fun i hi => ha i (by omega)) (fun i hi => hb i (by omega)) hr i hlt
    · have : i = n := by omega
      subst this; exact hn

/-- C20: on a view reshaped by `mat_reshape` to dims `D` of length `len ≥ 1` with product
below `2 ^ 16`, over a buffer that holds the product, two in-range index vectors that
differ somewhere below `len` have different offsets; `mat_set(m, v, idx)` then changes
only the slot of `idx`: every other buffer cell, and so `mat_get(m, idx2)`, reads the
same before and after, and the descriptor is unchanged. -/
theorem mat_set_frame (buf : List fixed) (m : mat_t) (D idx idx2 : Nat → Nat) (len : Nat)
    (v : fixed) (_h1 : 1 ≤ len) (hP : prod_lt D len < U16)
    (hidx : ∀ i, i < len → idx i < D i) (hidx2 : ∀ i, i < len → idx2 i < D i)
    (hne : ∃ i, i < len ∧ idx i ≠ idx2 i)
    (hfit : m.data + prod_lt D len ≤ buf.length) :
    _offset_calc (mat_reshape m D len) idx len ≠ _offset_calc (mat_reshape m D len) idx2 len ∧
    ∃ buf2, mat_set_state buf (mat_reshape m D len) v idx len
        = some (buf2, mat_reshape m D len) ∧
      buf2.length = buf.length ∧
      (∀ k, k ≠ (mat_reshape m D len).data + _offset_calc (mat_reshape m D len) idx len →
        buf2.get? k = buf.get? k) ∧
      mat_get buf2 (mat_reshape m D len) idx2 len = mat_get buf (mat_reshape m D len) idx2 len := by
  have ho := reshape_offset m D idx len hP hidx
  have ho2 := reshape_offset m D idx2 len hP hidx2
  have hoff : _offset_calc (mat_reshape m D len) idx len
      ≠ _offset_calc (mat_reshape m D len) idx2 len := by
    intro heq
    rw [ho.1, ho2.1] at heq
    obtain ⟨i, hi, hdiff⟩ := hne
    exact hdiff (row_major_inj D idx idx2 len hidx hidx2 heq i hi)
  have hin := reshape_offset_in_buffer m D idx len buf.length hidx hfit
  refine ⟨hoff, buf.set ((mat_reshape m D len).data
    + _offset_calc (mat_reshape m D len) idx len) v, ?_, ?_, ?_, ?_⟩
  · simp only [mat_set_state, mat_set]
    rw [if_pos hin]
  · rw [List.length_set]
  · intro k hk
    rw [List.get?_eq_getElem?, List.getElem?_set_ne (fun h => hk h.symm),
      ← List.get?_eq_getElem?]
  · unfold mat_get
    rw [List.get?_eq_getElem?, List.getElem?_set_ne (by omega), ← List.get?_eq_getElem?]

/-- C20 on the buffer `[0, 1, 2, 3, 4, 5]` reshaped to `[2, 3]`: writing 42 at `{1, 0}` leaves
`mat_get({1, 2})` at 5. -/
theorem mat_set_frame_witness :
    (_offset_calc (mat_reshape mat_zero (arr [2, 3]) 2) (arr [1, 0]) 2
      ≠ _offset_calc (mat_reshape mat_zero (arr [2, 3]) 2) (arr [1, 2]) 2 ∧
    ∃ buf2, mat_set_state buf6 (mat_reshape mat_zero (arr [2, 3]) 2) 42 (arr [1, 0]) 2
        = some (buf2, mat_reshape mat_zero (arr [2, 3]) 2) ∧
      buf2.length = buf6.length ∧
      (∀ k, k ≠ (mat_reshape mat_zero (arr [2, 3]) 2).data
          + _offset_calc (mat_reshape mat_zero (arr [2, 3]) 2) (arr [1, 0]) 2 →
        buf2.get? k = buf6.get? k) ∧
      mat_get buf2 (mat_reshape mat_zero (arr [2, 3]) 2) (arr [1, 2]) 2
        = mat_get buf6 (mat_reshape mat_zero (arr [2, 3]) 2) (arr [1, 2]) 2) ∧
    mat_set buf6 (mat_reshape mat_zero (arr [2, 3]) 2) 42 (arr [1, 0]) 2
      = some [0, 1, 2, 42, 4, 5] ∧
    mat_get [0, 1, 2, 42, 4, 5] (mat_reshape mat_zero (arr [2, 3]) 2) (arr [1, 2]) 2 = some 5 :=
  ⟨mat_set_frame buf6 mat_zero (arr [2, 3]) (arr [1, 0]) (arr [1, 2]) 2 42 (by decide)
      (by decide) (by decide) (by decide) ⟨1, by decide, by decide⟩ (by decide),
    by decide, by decide⟩

end LibMat
